import Mathlib

/-!
# jniproj.c : the JNI binding of Proj4 (org.proj4.PJ)

A shallow embedding of `src/trunk/geoapi-proj4/src/main/native/jniproj.c`.

* C `int` / JNI `jint` values are integers, and the result of every `int` operation is
  brought back to 32 bits by `wrap32` (the reading of the machine, modulo `2^32`).
* A `PJ*` is an `Option (PJ α)`: `none` is the NULL pointer.  A `jobject` or `jdoubleArray`
  that may be `null` is an `Option` as well.
* C `double` values are elements of a type `α`; the functions of `math.h` the file uses
  are passed in a `CMath α`.  The type `Dbl` is IEEE 754 binary64 (round to nearest, ties to
  even, with subnormals, signed zeros, infinities and NaN) and the claims on the values the
  accessors return are stated on it.  The claim that is stated in real arithmetic
  instantiates `α` with the real numbers.
* The JVM and the Proj4 library are external: what the file asks of them is a field of
  `JNIEnv`.  `FindClass` and `GetPrimitiveArrayCritical` may return NULL, as the source
  provides for; `ThrowNew` is taken to succeed, as the source does.  An `Outcome` records
  the exception the function raises itself with `ThrowNew`, not one the JVM may have left
  pending when a lookup failed.
-/

namespace JniProj

/-! ## Machine integers -/

/-- The 32-bit signed value (`int`, `jint`) an integer is reduced to, modulo `2^32`. -/
def wrap32 (z : Int) : Int := (z + 2147483648) % 4294967296 - 2147483648

/-- The values of a `jint`. -/
def isJint (z : Int) : Prop := -2147483648 ≤ z ∧ z ≤ 2147483647

instance (z : Int) : Decidable (isJint z) := by unfold isJint; infer_instance

/-! ## Data -/

/-- The members of the `PJ` structure (declared in `projects.h`) that `jniproj.c` reads. -/
structure PJ (α : Type) where
  a_orig : α
  es_orig : α
  es : α
  one_es : α
deriving DecidableEq

/-- A Java object, seen through `GetFieldID` / `GetLongField`: for a field name, the value
of the field of type `long` (signature `"J"`) of that name, when the class has one. -/
structure JObject where
  longField : String → Option Int

/-- The part of `math.h` used by the file. -/
structure CMath (α : Type) where
  sqrt : α → α
  NAN : α

/-- What the file asks of the JVM (through `JNIEnv *env`) and of the Proj4 library. -/
structure JNIEnv (α : Type) where
  /-- Whether `FindClass` resolves the class of that name (it returns NULL otherwise). -/
  hasClass : String → Bool
  /-- Native memory: the `PJ` structure stored at a non-null address. -/
  pjAt : Int → PJ α
  /-- Whether `GetPrimitiveArrayCritical` hands out the elements of that array
  (it returns NULL otherwise). -/
  critical : List α → Bool
  /-- Proj4 `pj_transform(src, dst, point_count, point_offset, x, y, z)`: `x`, `y`, `z` point
  into `data` and are given by their index; the result is the error code and the
  elements after the call. -/
  pj_transform : PJ α → PJ α → Int → Int → List α → Int → Int → Option Int → Int × List α
  /-- Proj4 `pj_strerrno`. -/
  pj_strerrno : Int → String

/-- An invocation of `pj_transform`, with the arguments it received. -/
structure NativeCall (α : Type) where
  src : PJ α
  dst : PJ α
  point_count : Int
  point_offset : Int
  x : Int
  y : Int
  z : Option Int
deriving DecidableEq

/-- What a call of `Java_org_proj4_PJ_transform` leaves behind. -/
structure Outcome (α : Type) where
  /-- The exception raised with `ThrowNew`: class name and message. -/
  thrown : Option (String × String)
  /-- The invocations of `pj_transform`, in order. -/
  calls : List (NativeCall α)
  /-- The `coordinates` array after the call. -/
  coordinates : Option (List α)

/-! ## JNI functions -/

/-- JNI `FindClass`: the class of that name, or NULL. -/
def FindClass {α : Type} (env : JNIEnv α) (name : String) : Option String :=
  if env.hasClass name then some name else none

/-- JNI `GetFieldID` on the class of `object`, for a field of type `long`. -/
def GetFieldID (object : JObject) (name : String) : Option String :=
  match object.longField name with
  | some _ => some name
  | none => none

/-- JNI `GetLongField`. -/
def GetLongField (object : JObject) (id : String) : Int :=
  (object.longField id).getD 0

/-- JNI `GetArrayLength`. -/
def GetArrayLength {α : Type} (array : List α) : Int := array.length

/-- JNI `GetPrimitiveArrayCritical`: the elements, or NULL. -/
def GetPrimitiveArrayCritical {α : Type} (env : JNIEnv α) (array : List α) : Option (List α) :=
  if env.critical array then some array else none

/-! ## The functions of jniproj.c -/

/-- The function `getPJ`: the `PJ` structure wrapped by the Java object, or NULL. -/
def getPJ {α : Type} (env : JNIEnv α) (object : JObject) : Option (PJ α) :=
  match GetFieldID object "ptr" with
  | none => none
  | some id =>
    let p := GetLongField object id
    if p = 0 then none else some (env.pjAt p)

/-- The function `Java_org_proj4_PJ_getSemiMajorAxis`. -/
def Java_org_proj4_PJ_getSemiMajorAxis {α : Type} (m : CMath α) (env : JNIEnv α)
    (object : JObject) : α :=
  match getPJ env object with
  | some pj => pj.a_orig
  | none => m.NAN

/-- The function `Java_org_proj4_PJ_getSemiMinorAxis`. -/
def Java_org_proj4_PJ_getSemiMinorAxis {α : Type} [One α] [Sub α] [Mul α] (m : CMath α)
    (env : JNIEnv α) (object : JObject) : α :=
  match getPJ env object with
  | none => m.NAN
  | some pj =>
    let a := pj.a_orig
    m.sqrt (a * a * (1 - pj.es_orig))

/-- The function `Java_org_proj4_PJ_getInverseFlattening`. -/
def Java_org_proj4_PJ_getInverseFlattening {α : Type} [One α] [Sub α] [Div α] (m : CMath α)
    (env : JNIEnv α) (object : JObject) : α :=
  match getPJ env object with
  | some pj => 1 / (1 - m.sqrt pj.one_es)
  | none => m.NAN

/-- The local `int dimension = hasZ ? 3 : 2;` of `Java_org_proj4_PJ_transform`. -/
def dimensionOf (hasZ : Bool) : Int := if hasZ then 3 else 2

/-- The test of the bounds check of `Java_org_proj4_PJ_transform`,
`(offset < 0) || (numPts < 0) || (offset + dimension*numPts) > GetArrayLength(coordinates)`,
computed on `int`. -/
def outOfBounds {α : Type} (hasZ : Bool) (array : List α) (offset numPts : Int) : Prop :=
  offset < 0 ∨ numPts < 0 ∨
    wrap32 (offset + wrap32 (dimensionOf hasZ * numPts)) > GetArrayLength array

instance {α : Type} (hasZ : Bool) (array : List α) (offset numPts : Int) :
    Decidable (outOfBounds hasZ array offset numPts) := by
  unfold outOfBounds; infer_instance

/-- The function `Java_org_proj4_PJ_transform`. -/
def Java_org_proj4_PJ_transform {α : Type} (env : JNIEnv α) (object : JObject)
    (target : Option JObject) (hasZ : Bool) (coordinates : Option (List α))
    (offset numPts : Int) : Outcome α :=
  match target, coordinates with
  | some tgt, some array =>
    let dimension := dimensionOf hasZ
    if outOfBounds hasZ array offset numPts then
      match FindClass env "java/lang/ArrayIndexOutOfBoundsException" with
      | some c =>
        { thrown := some (c, "Illegal offset or illegal number of points."),
          calls := [], coordinates := coordinates }
      | none => { thrown := none, calls := [], coordinates := coordinates }
    else
      match getPJ env object, getPJ env tgt with
      | some src_pj, some dst_pj =>
        match GetPrimitiveArrayCritical env array with
        | some data =>
          let x := offset
          let y := x + 1
          let z := if hasZ then some (y + 1) else none
          let r := env.pj_transform src_pj dst_pj numPts dimension data x y z
          let err := r.1
          let call : NativeCall α :=
            { src := src_pj, dst := dst_pj, point_count := numPts,
              point_offset := dimension, x := x, y := y, z := z }
          -- ReleasePrimitiveArrayCritical with mode 0 copies the elements back
          if err ≠ 0 then
            match FindClass env "org/proj4/PJException" with
            | some c =>
              { thrown := some (c, env.pj_strerrno err), calls := [call],
                coordinates := some r.2 }
            | none => { thrown := none, calls := [call], coordinates := some r.2 }
          else { thrown := none, calls := [call], coordinates := some r.2 }
        | none => { thrown := none, calls := [], coordinates := coordinates }
      | _, _ => { thrown := none, calls := [], coordinates := coordinates }
  | _, _ =>
    match FindClass env "java/lang/NullPointerException" with
    | some c =>
      { thrown := some (c, "The target CRS and the coordinates array can not be null."),
        calls := [], coordinates := coordinates }
    | none => { thrown := none, calls := [], coordinates := coordinates }

/-- The class of the exception raised by the call, if any. -/
def raised {α : Type} (r : Outcome α) : Option String := r.thrown.map Prod.fst

/-- The index in the array of ordinate `k` (x is 0, y is 1, z is 2) of point number `i` in an
invocation of `pj_transform`: the points are `point_offset` slots apart, from `x`. -/
def NativeCall.slot {α : Type} (c : NativeCall α) (i k : Int) : Int :=
  c.x + c.point_offset * i + k

/-- The result of the invocation of `pj_transform` the call makes when it reaches it. -/
def nativeResult {α : Type} (env : JNIEnv α) (src_pj dst_pj : PJ α) (hasZ : Bool)
    (array : List α) (offset numPts : Int) : Int × List α :=
  env.pj_transform src_pj dst_pj numPts (dimensionOf hasZ) array offset (offset + 1)
    (if hasZ then some (offset + 1 + 1) else none)

/-! ## Concrete inputs -/

/-- An environment in which every address holds `pj`, `FindClass` resolves every class or none,
the array elements are handed out, and `pj_transform` returns `err` and leaves the data. -/
def envOf {α : Type} (classes : Bool) (err : Int) (pj : PJ α) : JNIEnv α :=
  { hasClass := fun _ => classes
    pjAt := fun _ => pj
    critical := fun _ => true
    pj_transform := fun _ _ _ _ data _ _ _ => (err, data)
    pj_strerrno := fun e => if e = 0 then "no error" else "transform failed" }

/-- A Java object whose `long ptr` field holds `p`. -/
def objAt (p : Int) : JObject := { longField := fun n => if n = "ptr" then some p else none }

/-- A sphere of radius 1. -/
def unitSphere : PJ Int := { a_orig := 1, es_orig := 0, es := 0, one_es := 1 }

/-- The invocation of `pj_transform` on `2^30` points of stride 2 from index 0. -/
def overflowCall : NativeCall Int :=
  { src := unitSphere, dst := unitSphere, point_count := 1073741824, point_offset := 2,
    x := 0, y := 1, z := none }

/-- A value of the C type `double` (IEEE 754 binary64): NaN, an infinity with its sign, or a
finite value given by its sign and its magnitude (`fin true 0` is the negative zero). -/
inductive Dbl where
  | nan : Dbl
  | inf (neg : Bool) : Dbl
  | fin (neg : Bool) (mag : ℚ) : Dbl

namespace Dbl

/-- The exponent of the unit in the last place of a positive magnitude: 52 binary places
below its leading bit, and at least `-1074` (subnormal range). -/
def qexp (x : ℚ) : ℤ := max (Int.log 2 x - 52) (-1074)

/-- Rounding of a rational to the nearest integer, ties to even. -/
def roundHalfEven (y : ℚ) : ℤ :=
  if y - ⌊y⌋ < 1 / 2 then ⌊y⌋
  else if 1 / 2 < y - ⌊y⌋ then ⌊y⌋ + 1
  else if ⌊y⌋ % 2 = 0 then ⌊y⌋ else ⌊y⌋ + 1

/-- Rounding of a magnitude to the nearest multiple of its unit in the last place. -/
def rnd (x : ℚ) : ℚ := roundHalfEven (x / 2 ^ qexp x) * 2 ^ qexp x

/-- The double of sign `neg` nearest to the magnitude `x`: an infinity on overflow. -/
def ofMag (neg : Bool) (x : ℚ) : Dbl :=
  if (2 : ℚ) ^ (1024 : ℕ) ≤ rnd x then inf neg else fin neg (rnd x)

/-- The rational value of a finite double. -/
def val (neg : Bool) (mag : ℚ) : ℚ := if neg then -mag else mag

/-- The double nearest to a rational. -/
def ofRat (v : ℚ) : Dbl := if v < 0 then ofMag true (-v) else ofMag false v

/-- Unary minus. -/
def neg : Dbl → Dbl
  | nan => nan
  | inf s => inf (!s)
  | fin s m => fin (!s) m

/-- The operator `+` on doubles. -/
def add : Dbl → Dbl → Dbl
  | nan, _ => nan
  | _, nan => nan
  | inf s, inf t => if s = t then inf s else nan
  | inf s, fin _ _ => inf s
  | fin _ _, inf t => inf t
  | fin s m, fin t n =>
    if val s m + val t n = 0 then fin (s && t) 0 else ofRat (val s m + val t n)

/-- The operator `-` on doubles. -/
def sub (x y : Dbl) : Dbl := add x (neg y)

/-- The operator `*` on doubles. -/
def mul : Dbl → Dbl → Dbl
  | nan, _ => nan
  | _, nan => nan
  | inf s, inf t => inf (xor s t)
  | inf s, fin t n => if n = 0 then nan else inf (xor s t)
  | fin s m, inf t => if m = 0 then nan else inf (xor s t)
  | fin s m, fin t n => ofMag (xor s t) (m * n)

/-- The operator `/` on doubles. -/
def div : Dbl → Dbl → Dbl
  | nan, _ => nan
  | _, nan => nan
  | inf _, inf _ => nan
  | inf s, fin t _ => inf (xor s t)
  | fin s _, inf t => fin (xor s t) 0
  | fin s m, fin t n =>
    if n = 0 then (if m = 0 then nan else inf (xor s t)) else ofMag (xor s t) (m / n)

/-- The exponent of the unit in the last place of the square root of a positive magnitude. -/
def sqexp (x : ℚ) : ℤ := Int.log 2 x / 2 - 52

/-- The multiple of the unit in the last place nearest to the square root of a positive
magnitude, ties to even. -/
def sqrtRnd (x : ℚ) : ℚ :=
  let y := x / 2 ^ (2 * sqexp x)
  let n : ℤ := Nat.sqrt ⌊y⌋.toNat
  let h : ℚ := (n + 1 / 2) ^ 2
  (if y < h then n else if h < y then n + 1 else if n % 2 = 0 then n else n + 1) * 2 ^ sqexp x

/-- The function `sqrt` of `math.h`. -/
def sqrt : Dbl → Dbl
  | nan => nan
  | inf s => if s then nan else inf false
  | fin s m => if m = 0 then fin s 0 else if s then nan else fin false (sqrtRnd m)

/-- The operator `<=` on doubles. -/
def le : Dbl → Dbl → Bool
  | nan, _ => false
  | _, nan => false
  | inf s, inf t => s || !t
  | inf s, fin _ _ => s
  | fin _ _, inf t => !t
  | fin s m, fin t n => decide (val s m ≤ val t n)

/-- A magnitude that is a whole number of its units in the last place. -/
def IsDouble (f : ℚ) : Prop := ∃ n : ℤ, f = n * 2 ^ qexp f

instance : One Dbl := ⟨fin false 1⟩
instance : Zero Dbl := ⟨fin false 0⟩
instance : Sub Dbl := ⟨sub⟩
instance : Mul Dbl := ⟨mul⟩
instance : Div Dbl := ⟨div⟩

end Dbl

/-- The functions of `math.h` on doubles. -/
def Dbl.math : CMath Dbl := { sqrt := Dbl.sqrt, NAN := Dbl.nan }

/-- The sphere of radius 6370997 in doubles: `es = 0` and `one_es = 1`. -/
def sphere : PJ Dbl :=
  { a_orig := .fin false 6370997, es_orig := .fin false 0, es := .fin false 0,
    one_es := .fin false 1 }

/-- A sphere whose radius `2^700` is a double but whose square is not. -/
def hugeSphere : PJ Dbl :=
  { a_orig := .fin false (2 ^ (700 : ℤ)), es_orig := .fin false 0, es := .fin false 0,
    one_es := .fin false 1 }

/-- A sphere whose radius `15 * 2^(-540)` is a normal double but whose square is subnormal. -/
def tinySphere : PJ Dbl :=
  { a_orig := .fin false (15 * 2 ^ (-540 : ℤ)), es_orig := .fin false 0, es := .fin false 0,
    one_es := .fin false 1 }

/-- The ellipsoid WGS84 in doubles: `a = 6378137` and `es = 482380915665231 * 2^(-56)`. -/
def wgs84 : PJ Dbl :=
  { a_orig := .fin false 6378137, es_orig := .fin false (482380915665231 / 2 ^ 56),
    es := .fin false (482380915665231 / 2 ^ 56),
    one_es := .fin false (1 - 482380915665231 / 2 ^ 56) }

/-! ## Lemmas -/

theorem wrap32_eq_self (z : Int) (h1 : -2147483648 ≤ z) (h2 : z ≤ 2147483647) :
    wrap32 z = z := by
  unfold wrap32; omega

theorem wrap32_le_self (z : Int) (h : -2147483648 ≤ z) : wrap32 z ≤ z := by
  unfold wrap32; omega

theorem wrap32_ge (z : Int) : -2147483648 ≤ wrap32 z := by
  unfold wrap32; omega

theorem dimensionOf_cases (hasZ : Bool) : dimensionOf hasZ = 2 ∨ dimensionOf hasZ = 3 := by
  cases hasZ <;> simp [dimensionOf]

/-- Without overflow the test of the bounds check is the mathematical one. -/
theorem outOfBounds_iff_of_fit {α : Type} (hasZ : Bool) (array : List α) (offset numPts : Int)
    (hfit : 0 ≤ offset → 0 ≤ numPts → offset + dimensionOf hasZ * numPts ≤ 2147483647) :
    outOfBounds hasZ array offset numPts ↔
      (offset < 0 ∨ numPts < 0 ∨ offset + dimensionOf hasZ * numPts > (array.length : Int)) := by
  unfold outOfBounds GetArrayLength
  by_cases ho : offset < 0
  · simp [ho]
  by_cases hn : numPts < 0
  · simp [hn]
  have hfit2 := hfit (by omega) (by omega)
  have hd : wrap32 (dimensionOf hasZ * numPts) = dimensionOf hasZ * numPts := by
    apply wrap32_eq_self
    · rcases dimensionOf_cases hasZ with h | h <;> rw [h] <;> omega
    · rcases dimensionOf_cases hasZ with h | h <;> rw [h] at hfit2 ⊢ <;> omega
  rw [hd, wrap32_eq_self _ _ hfit2]
  rcases dimensionOf_cases hasZ with h | h <;> rw [h] <;> omega

/-- The in-range case of the claimed contract always passes the bounds check of the code. -/
theorem not_outOfBounds_of_inRange {α : Type} (hasZ : Bool) (array : List α)
    (offset numPts : Int) (ho : 0 ≤ offset) (hn : 0 ≤ numPts)
    (hle : offset + dimensionOf hasZ * numPts ≤ (array.length : Int)) :
    ¬ outOfBounds hasZ array offset numPts := by
  unfold outOfBounds GetArrayLength
  have hd : wrap32 (dimensionOf hasZ * numPts) ≤ dimensionOf hasZ * numPts := by
    apply wrap32_le_self
    rcases dimensionOf_cases hasZ with h | h <;> rw [h] <;> omega
  have hg := wrap32_ge (dimensionOf hasZ * numPts)
  have hs := wrap32_le_self (offset + wrap32 (dimensionOf hasZ * numPts)) (by omega)
  omega

theorem transform_of_null {α : Type} (env : JNIEnv α) (object : JObject)
    (target : Option JObject) (hasZ : Bool) (coordinates : Option (List α))
    (offset numPts : Int) (h : target = none ∨ coordinates = none) :
    Java_org_proj4_PJ_transform env object target hasZ coordinates offset numPts =
      match FindClass env "java/lang/NullPointerException" with
      | some c =>
        { thrown := some (c, "The target CRS and the coordinates array can not be null."),
          calls := [], coordinates := coordinates }
      | none => { thrown := none, calls := [], coordinates := coordinates } := by
  unfold Java_org_proj4_PJ_transform
  rcases h with h | h
  · subst h; rfl
  · subst h; cases target <;> rfl

theorem transform_of_outOfBounds {α : Type} (env : JNIEnv α) (object tgt : JObject)
    (hasZ : Bool) (array : List α) (offset numPts : Int)
    (h : outOfBounds hasZ array offset numPts) :
    Java_org_proj4_PJ_transform env object (some tgt) hasZ (some array) offset numPts =
      match FindClass env "java/lang/ArrayIndexOutOfBoundsException" with
      | some c =>
        { thrown := some (c, "Illegal offset or illegal number of points."),
          calls := [], coordinates := some array }
      | none => { thrown := none, calls := [], coordinates := some array } := by
  unfold Java_org_proj4_PJ_transform
  simp only [h, if_true]

theorem transform_of_no_pj {α : Type} (env : JNIEnv α) (object tgt : JObject)
    (hasZ : Bool) (array : List α) (offset numPts : Int)
    (h : ¬ outOfBounds hasZ array offset numPts)
    (hpj : getPJ env object = none ∨ getPJ env tgt = none) :
    Java_org_proj4_PJ_transform env object (some tgt) hasZ (some array) offset numPts =
      { thrown := none, calls := [], coordinates := some array } := by
  unfold Java_org_proj4_PJ_transform
  simp only [h, if_false]
  rcases hpj with hpj | hpj
  · rw [hpj]
  · rw [hpj]; cases getPJ env object <;> rfl

theorem transform_of_no_data {α : Type} (env : JNIEnv α) (object tgt : JObject)
    (hasZ : Bool) (array : List α) (offset numPts : Int)
    (h : ¬ outOfBounds hasZ array offset numPts)
    (hdata : env.critical array = false) :
    Java_org_proj4_PJ_transform env object (some tgt) hasZ (some array) offset numPts =
      { thrown := none, calls := [], coordinates := some array } := by
  unfold Java_org_proj4_PJ_transform
  simp only [h, if_false, GetPrimitiveArrayCritical, hdata]
  cases getPJ env object <;> cases getPJ env tgt <;> simp

theorem transform_of_reached {α : Type} (env : JNIEnv α) (object tgt : JObject)
    (hasZ : Bool) (array : List α) (offset numPts : Int) (src_pj dst_pj : PJ α)
    (h : ¬ outOfBounds hasZ array offset numPts)
    (hsrc : getPJ env object = some src_pj) (hdst : getPJ env tgt = some dst_pj)
    (hdata : env.critical array = true) :
    Java_org_proj4_PJ_transform env object (some tgt) hasZ (some array) offset numPts =
      { thrown :=
          if (nativeResult env src_pj dst_pj hasZ array offset numPts).1 ≠ 0 then
            (FindClass env "org/proj4/PJException").map fun c =>
              (c, env.pj_strerrno (nativeResult env src_pj dst_pj hasZ array offset numPts).1)
          else none,
        calls := [{ src := src_pj, dst := dst_pj, point_count := numPts,
                    point_offset := dimensionOf hasZ, x := offset, y := offset + 1,
                    z := if hasZ then some (offset + 1 + 1) else none }],
        coordinates := some (nativeResult env src_pj dst_pj hasZ array offset numPts).2 } := by
  unfold Java_org_proj4_PJ_transform
  simp only [h, if_false, GetPrimitiveArrayCritical, hdata, hsrc, hdst, nativeResult, if_true]
  by_cases he : (env.pj_transform src_pj dst_pj numPts (dimensionOf hasZ) array offset
      (offset + 1) (if hasZ then some (offset + 1 + 1) else none)).1 = 0
  · simp [he]
  · simp only [he, ne_eq, not_false_eq_true, if_true]
    cases FindClass env "org/proj4/PJException" <;> rfl

/-- Once the bounds check is passed the only exception the call can raise is `PJException`. -/
theorem raised_of_passed {α : Type} (env : JNIEnv α) (object tgt : JObject)
    (hasZ : Bool) (array : List α) (offset numPts : Int)
    (h : ¬ outOfBounds hasZ array offset numPts) :
    raised (Java_org_proj4_PJ_transform env object (some tgt) hasZ (some array) offset numPts)
        = none ∨
      raised (Java_org_proj4_PJ_transform env object (some tgt) hasZ (some array) offset numPts)
        = some "org/proj4/PJException" := by
  cases hsrc : getPJ env object with
  | none => left; rw [transform_of_no_pj env object tgt hasZ array offset numPts h (Or.inl hsrc)]; rfl
  | some src_pj =>
    cases hdst : getPJ env tgt with
    | none =>
      left; rw [transform_of_no_pj env object tgt hasZ array offset numPts h (Or.inr hdst)]; rfl
    | some dst_pj =>
      cases hdata : env.critical array with
      | false => left; rw [transform_of_no_data env object tgt hasZ array offset numPts h hdata]; rfl
      | true =>
        rw [transform_of_reached env object tgt hasZ array offset numPts src_pj dst_pj h hsrc
          hdst hdata]
        simp only [raised, FindClass]
        by_cases he : (nativeResult env src_pj dst_pj hasZ array offset numPts).1 = 0
        · left; simp [he]
        · cases hc : env.hasClass "org/proj4/PJException" <;> simp [he, hc]

/-- Every call either leaves no trace (no native invocation, array unchanged) or ends
without exception or with `PJException`. -/
theorem transform_frame {α : Type} (env : JNIEnv α) (object : JObject)
    (target : Option JObject) (hasZ : Bool) (coordinates : Option (List α))
    (offset numPts : Int) :
    ((Java_org_proj4_PJ_transform env object target hasZ coordinates offset numPts).calls = [] ∧
      (Java_org_proj4_PJ_transform env object target hasZ coordinates offset numPts).coordinates
        = coordinates) ∨
    raised (Java_org_proj4_PJ_transform env object target hasZ coordinates offset numPts)
        = none ∨
    raised (Java_org_proj4_PJ_transform env object target hasZ coordinates offset numPts)
        = some "org/proj4/PJException" := by
  by_cases hnull : target = none ∨ coordinates = none
  · left
    rw [transform_of_null env object target hasZ coordinates offset numPts hnull]
    cases FindClass env "java/lang/NullPointerException" <;> exact ⟨rfl, rfl⟩
  · obtain ⟨tgt, rfl⟩ : ∃ t, target = some t := by
      cases target with
      | none => exact absurd (Or.inl rfl) hnull
      | some t => exact ⟨t, rfl⟩
    obtain ⟨array, rfl⟩ : ∃ a, coordinates = some a := by
      cases coordinates with
      | none => exact absurd (Or.inr rfl) hnull
      | some a => exact ⟨a, rfl⟩
    by_cases hob : outOfBounds hasZ array offset numPts
    · left
      rw [transform_of_outOfBounds env object tgt hasZ array offset numPts hob]
      cases FindClass env "java/lang/ArrayIndexOutOfBoundsException" <;> exact ⟨rfl, rfl⟩
    · right
      exact raised_of_passed env object tgt hasZ array offset numPts hob

/-! ## Claims on `Java_org_proj4_PJ_transform` -/

/-- C1, as stated, fails in two ways. (1) Overflow: with a resolving JVM, a buffer of length 4,
`offset = 0`, `numPts = 2^30` and `hasZ = false`, the mathematical value `0 + 2 * 2^30` exceeds
4 but the call raises no bounds error. (2) Class lookup: on the scenario of the claim (length 4,
`offset = 2`, `numPts = 2`, `hasZ = false`), when `FindClass` returns NULL the guard `if (c)`
skips `ThrowNew` and no bounds error is raised. -/
theorem bounds_error_claim_refuted :
    (isJint 0 ∧ isJint 1073741824 ∧
      (0 : Int) + dimensionOf false * 1073741824 > GetArrayLength [(0 : Int), 0, 0, 0] ∧
      ¬ raised (Java_org_proj4_PJ_transform (envOf true 0 unitSphere) (objAt 1)
          (some (objAt 2)) false (some [0, 0, 0, 0]) 0 1073741824)
        = some "java/lang/ArrayIndexOutOfBoundsException") ∧
    (isJint 2 ∧ isJint 2 ∧
      (2 : Int) + dimensionOf false * 2 > GetArrayLength [(0 : Int), 0, 0, 0] ∧
      ¬ raised (Java_org_proj4_PJ_transform (envOf false 0 unitSphere) (objAt 1)
          (some (objAt 2)) false (some [0, 0, 0, 0]) 2 2)
        = some "java/lang/ArrayIndexOutOfBoundsException") := by
  decide

/-- C1 (amended): for a non-null target and a non-null coordinates array of length L, and
offset, numPts such that `offset + dimension*numPts` does not overflow an `int` when both
are non-negative, the call raises `ArrayIndexOutOfBoundsException` if and only if `FindClass`
resolves that class and `offset < 0`, or `numPts < 0`, or `offset + dimension*numPts > L`. -/
theorem transform_bounds_error_iff {α : Type} (env : JNIEnv α) (object tgt : JObject)
    (hasZ : Bool) (array : List α) (offset numPts : Int)
    (hfit : 0 ≤ offset → 0 ≤ numPts → offset + dimensionOf hasZ * numPts ≤ 2147483647) :
    raised (Java_org_proj4_PJ_transform env object (some tgt) hasZ (some array) offset numPts)
        = some "java/lang/ArrayIndexOutOfBoundsException" ↔
      (env.hasClass "java/lang/ArrayIndexOutOfBoundsException" = true ∧
        (offset < 0 ∨ numPts < 0 ∨
          offset + dimensionOf hasZ * numPts > (array.length : Int))) := by
  rw [← outOfBounds_iff_of_fit hasZ array offset numPts hfit]
  by_cases hob : outOfBounds hasZ array offset numPts
  · rw [transform_of_outOfBounds env object tgt hasZ array offset numPts hob]
    cases hc : env.hasClass "java/lang/ArrayIndexOutOfBoundsException" <;>
      simp [raised, FindClass, hc, hob]
  · have hp := raised_of_passed env object tgt hasZ array offset numPts hob
    constructor
    · intro h
      rcases hp with hp | hp
      · rw [hp] at h; exact absurd h (by simp)
      · rw [hp] at h; exact absurd h (by decide)
    · intro h; exact absurd h.2 hob

/-- The scenario of C1 : a buffer of length 4 with `offset = 2`, `numPts = 2`, `hasZ = false`
raises the bounds error when the JVM resolves the class. -/
theorem transform_bounds_error_iff_witness :
    ((0 : Int) ≤ 2 → (0 : Int) ≤ 2 → (2 : Int) + dimensionOf false * 2 ≤ 2147483647) ∧
    raised (Java_org_proj4_PJ_transform (envOf true 0 unitSphere) (objAt 1)
        (some (objAt 2)) false (some [0, 0, 0, 0]) 2 2)
      = some "java/lang/ArrayIndexOutOfBoundsException" :=
  ⟨by decide,
   (transform_bounds_error_iff (envOf true 0 unitSphere) (objAt 1) (objAt 2) false
      [0, 0, 0, 0] 2 2 (by decide)).mpr ⟨rfl, by decide⟩⟩

/-- C2, as stated, fails when `FindClass` cannot resolve `java/lang/NullPointerException`:
with an absent target the guard `if (c)` skips `ThrowNew` and the call raises nothing. -/
theorem null_input_claim_refuted :
    ¬ raised (Java_org_proj4_PJ_transform (envOf false 0 unitSphere) (objAt 1)
        none false (some [0, 0, 0, 0]) (-1) 1)
      = some "java/lang/NullPointerException" := by
  decide

/-- C2 (amended): when the target or the coordinates array is absent, whatever hasZ, offset
and numPts, the call raises `NullPointerException` (with the fixed message) if `FindClass`
resolves that class and raises nothing otherwise; in both cases it never raises the bounds
error: the null check comes first. -/
theorem transform_null_input {α : Type} (env : JNIEnv α) (object : JObject)
    (target : Option JObject) (hasZ : Bool) (coordinates : Option (List α))
    (offset numPts : Int) (h : target = none ∨ coordinates = none) :
    (Java_org_proj4_PJ_transform env object target hasZ coordinates offset numPts).thrown =
        (if env.hasClass "java/lang/NullPointerException" then
          some ("java/lang/NullPointerException",
            "The target CRS and the coordinates array can not be null.")
        else none) ∧
      raised (Java_org_proj4_PJ_transform env object target hasZ coordinates offset numPts)
        ≠ some "java/lang/ArrayIndexOutOfBoundsException" := by
  rw [transform_of_null env object target hasZ coordinates offset numPts h]
  cases hc : env.hasClass "java/lang/NullPointerException" <;>
    simp [raised, FindClass, hc]

/-- An absent target with an out-of-range offset: `NullPointerException`, no bounds error. -/
theorem transform_null_input_witness :
    ((none : Option JObject) = none ∨ some [(0 : Int), 0, 0, 0] = none) ∧
    ((Java_org_proj4_PJ_transform (envOf true 0 unitSphere) (objAt 1) none false
          (some [0, 0, 0, 0]) (-1) 1).thrown =
        (if (envOf true 0 unitSphere).hasClass "java/lang/NullPointerException" then
          some ("java/lang/NullPointerException",
            "The target CRS and the coordinates array can not be null.")
        else none) ∧
      raised (Java_org_proj4_PJ_transform (envOf true 0 unitSphere) (objAt 1) none false
          (some [0, 0, 0, 0]) (-1) 1)
        ≠ some "java/lang/ArrayIndexOutOfBoundsException") :=
  ⟨Or.inl rfl,
   transform_null_input (envOf true 0 unitSphere) (objAt 1) none false (some [0, 0, 0, 0])
     (-1) 1 (Or.inl rfl)⟩

/-- C3: a call that ends with the null-input error or with the bounds error has not invoked
`pj_transform` and leaves the coordinates array as it was. -/
theorem transform_error_leaves_buffer {α : Type} (env : JNIEnv α) (object : JObject)
    (target : Option JObject) (hasZ : Bool) (coordinates : Option (List α))
    (offset numPts : Int)
    (h : raised (Java_org_proj4_PJ_transform env object target hasZ coordinates offset numPts)
          = some "java/lang/NullPointerException" ∨
        raised (Java_org_proj4_PJ_transform env object target hasZ coordinates offset numPts)
          = some "java/lang/ArrayIndexOutOfBoundsException") :
    (Java_org_proj4_PJ_transform env object target hasZ coordinates offset numPts).calls = [] ∧
      (Java_org_proj4_PJ_transform env object target hasZ coordinates offset numPts).coordinates
        = coordinates := by
  rcases transform_frame env object target hasZ coordinates offset numPts with hf | hf | hf
  · exact hf
  · rw [hf] at h; rcases h with h | h <;> exact absurd h (by simp)
  · rw [hf] at h; rcases h with h | h <;> exact absurd h (by decide)

/-- The bounds scenario of the specification: no native call, buffer unmodified. -/
theorem transform_error_leaves_buffer_witness :
    (raised (Java_org_proj4_PJ_transform (envOf true 0 unitSphere) (objAt 1)
          (some (objAt 2)) false (some [5, 6, 7, 8]) 2 2)
        = some "java/lang/NullPointerException" ∨
      raised (Java_org_proj4_PJ_transform (envOf true 0 unitSphere) (objAt 1)
          (some (objAt 2)) false (some [5, 6, 7, 8]) 2 2)
        = some "java/lang/ArrayIndexOutOfBoundsException") ∧
    ((Java_org_proj4_PJ_transform (envOf true 0 unitSphere) (objAt 1)
          (some (objAt 2)) false (some [5, 6, 7, 8]) 2 2).calls = [] ∧
      (Java_org_proj4_PJ_transform (envOf true 0 unitSphere) (objAt 1)
          (some (objAt 2)) false (some [5, 6, 7, 8]) 2 2).coordinates = some [5, 6, 7, 8]) :=
  ⟨Or.inr (by decide),
   transform_error_leaves_buffer (envOf true 0 unitSphere) (objAt 1) (some (objAt 2)) false
     (some [5, 6, 7, 8]) 2 2 (Or.inr (by decide))⟩

/-- C4, as stated, fails: with every class resolvable, a source that wraps a projection, a
target whose `ptr` field is 0 (`getPJ` yields NULL), a buffer of length 4, `offset = 0`,
`numPts = 2` and `hasZ = false`, the test `if (src_pj && dst_pj)` skips the body and the call
returns with no exception at all. -/
theorem absent_handle_claim_refuted :
    getPJ (envOf true 0 unitSphere) (objAt 0) = none ∧
    (0 : Int) + dimensionOf false * 2 ≤ GetArrayLength [(0 : Int), 0, 0, 0] ∧
    ¬ raised (Java_org_proj4_PJ_transform (envOf true 0 unitSphere) (objAt 1)
        (some (objAt 0)) false (some [0, 0, 0, 0]) 0 2)
      = some "java/lang/NullPointerException" := by
  decide

/-- C4 (amended): with a non-null target, a non-null buffer and in-range offset and numPts,
if the source or the destination handle wraps no native projection (`getPJ` yields NULL),
the call returns without raising any error, without invoking `pj_transform` and with the
buffer unchanged. -/
theorem transform_absent_handle {α : Type} (env : JNIEnv α) (object tgt : JObject)
    (hasZ : Bool) (array : List α) (offset numPts : Int)
    (ho : 0 ≤ offset) (hn : 0 ≤ numPts)
    (hle : offset + dimensionOf hasZ * numPts ≤ (array.length : Int))
    (hpj : getPJ env object = none ∨ getPJ env tgt = none) :
    (Java_org_proj4_PJ_transform env object (some tgt) hasZ (some array) offset numPts).thrown
        = none ∧
      (Java_org_proj4_PJ_transform env object (some tgt) hasZ (some array) offset numPts).calls
        = [] ∧
      (Java_org_proj4_PJ_transform env object (some tgt) hasZ (some array) offset
        numPts).coordinates = some array := by
  rw [transform_of_no_pj env object tgt hasZ array offset numPts
    (not_outOfBounds_of_inRange hasZ array offset numPts ho hn hle) hpj]
  exact ⟨rfl, rfl, rfl⟩

/-- A target whose `ptr` field is 0: the call returns silently. -/
theorem transform_absent_handle_witness :
    ((0 : Int) ≤ 0 ∧ (0 : Int) ≤ 2 ∧
      (0 : Int) + dimensionOf false * 2 ≤ (([5, 6, 7, 8] : List Int).length : Int) ∧
      (getPJ (envOf true 0 unitSphere) (objAt 1) = none ∨
        getPJ (envOf true 0 unitSphere) (objAt 0) = none)) ∧
    ((Java_org_proj4_PJ_transform (envOf true 0 unitSphere) (objAt 1) (some (objAt 0)) false
        (some [5, 6, 7, 8]) 0 2).thrown = none ∧
      (Java_org_proj4_PJ_transform (envOf true 0 unitSphere) (objAt 1) (some (objAt 0)) false
        (some [5, 6, 7, 8]) 0 2).calls = [] ∧
      (Java_org_proj4_PJ_transform (envOf true 0 unitSphere) (objAt 1) (some (objAt 0)) false
        (some [5, 6, 7, 8]) 0 2).coordinates = some [5, 6, 7, 8]) :=
  ⟨⟨by decide, by decide, by decide, Or.inr (by decide)⟩,
   transform_absent_handle (envOf true 0 unitSphere) (objAt 1) (objAt 0) false [5, 6, 7, 8]
     0 2 (by decide) (by decide) (by decide) (Or.inr (by decide))⟩

/-- C5, as stated, fails when `FindClass` cannot resolve `org/proj4/PJException`: the checks
are passed, both handles wrap a projection, the buffer is obtained and `pj_transform` returns
the error code 7, but the guard `if (c)` skips `ThrowNew` and no `PJException` is raised. -/
theorem error_code_claim_refuted :
    ¬ outOfBounds false [(0 : Int), 0, 0, 0] 0 2 ∧
    getPJ (envOf false 7 unitSphere) (objAt 1) = some unitSphere ∧
    getPJ (envOf false 7 unitSphere) (objAt 2) = some unitSphere ∧
    GetPrimitiveArrayCritical (envOf false 7 unitSphere) [0, 0, 0, 0] = some [0, 0, 0, 0] ∧
    (nativeResult (envOf false 7 unitSphere) unitSphere unitSphere false [0, 0, 0, 0] 0 2).1
      ≠ 0 ∧
    ¬ raised (Java_org_proj4_PJ_transform (envOf false 7 unitSphere) (objAt 1)
        (some (objAt 2)) false (some [0, 0, 0, 0]) 0 2)
      = some "org/proj4/PJException" := by
  decide

/-- C5 (amended): for a call that passes the null and bounds checks, with both handles
wrapping a native projection and the buffer obtained, where `err` is the code returned by
`pj_transform`: the call raises `PJException` if and only if `err` is non-zero and
`FindClass` resolves `org/proj4/PJException`; when it does, the message is
`pj_strerrno(err)`; when `err` is zero nothing is raised. -/
theorem transform_error_code {α : Type} (env : JNIEnv α) (object tgt : JObject)
    (hasZ : Bool) (array : List α) (offset numPts : Int) (src_pj dst_pj : PJ α)
    (h : ¬ outOfBounds hasZ array offset numPts)
    (hsrc : getPJ env object = some src_pj) (hdst : getPJ env tgt = some dst_pj)
    (hdata : GetPrimitiveArrayCritical env array = some array) :
    (raised (Java_org_proj4_PJ_transform env object (some tgt) hasZ (some array) offset numPts)
          = some "org/proj4/PJException" ↔
        ((nativeResult env src_pj dst_pj hasZ array offset numPts).1 ≠ 0 ∧
          env.hasClass "org/proj4/PJException" = true)) ∧
      (raised (Java_org_proj4_PJ_transform env object (some tgt) hasZ (some array) offset
            numPts) = some "org/proj4/PJException" →
        (Java_org_proj4_PJ_transform env object (some tgt) hasZ (some array) offset
            numPts).thrown =
          some ("org/proj4/PJException",
            env.pj_strerrno (nativeResult env src_pj dst_pj hasZ array offset numPts).1)) ∧
      ((nativeResult env src_pj dst_pj hasZ array offset numPts).1 = 0 →
        (Java_org_proj4_PJ_transform env object (some tgt) hasZ (some array) offset
            numPts).thrown = none) := by
  have hcrit : env.critical array = true := by
    unfold GetPrimitiveArrayCritical at hdata
    by_cases hc : env.critical array = true
    · exact hc
    · simp [hc] at hdata
  rw [transform_of_reached env object tgt hasZ array offset numPts src_pj dst_pj h hsrc hdst
    hcrit]
  by_cases he : (nativeResult env src_pj dst_pj hasZ array offset numPts).1 = 0
  · simp [raised, he]
  · cases hc : env.hasClass "org/proj4/PJException" <;> simp [raised, FindClass, he, hc]

/-- A transform failing with code 7 on a JVM that resolves `PJException`. -/
theorem transform_error_code_witness :
    (¬ outOfBounds false [(0 : Int), 0, 0, 0] 0 2 ∧
      getPJ (envOf true 7 unitSphere) (objAt 1) = some unitSphere ∧
      getPJ (envOf true 7 unitSphere) (objAt 2) = some unitSphere ∧
      GetPrimitiveArrayCritical (envOf true 7 unitSphere) [0, 0, 0, 0] = some [0, 0, 0, 0]) ∧
    (Java_org_proj4_PJ_transform (envOf true 7 unitSphere) (objAt 1) (some (objAt 2)) false
        (some [0, 0, 0, 0]) 0 2).thrown
      = some ("org/proj4/PJException", (envOf true 7 unitSphere).pj_strerrno 7) :=
  ⟨⟨by decide, by decide, by decide, by decide⟩,
   (transform_error_code (envOf true 7 unitSphere) (objAt 1) (objAt 2) false [0, 0, 0, 0] 0 2
      unitSphere unitSphere (by decide) (by decide) (by decide) (by decide)).2.1
     ((transform_error_code (envOf true 7 unitSphere) (objAt 1) (objAt 2) false [0, 0, 0, 0]
        0 2 unitSphere unitSphere (by decide) (by decide) (by decide) (by decide)).1.mpr
       ⟨by decide, rfl⟩)⟩

/-- C10, at the failing input: with a buffer of length 4, `offset = 0`, `numPts = 2^30` and
`hasZ = false` (both `jint` values), `dimension*numPts` wraps to `-2^31`, the bounds check is
passed, and `pj_transform` is invoked on `2^30` points of stride 2 from index 0: the x
ordinate of point number 2 is at index 4, outside the buffer. -/
theorem transform_overflow_escapes_buffer :
    isJint 0 ∧ isJint 1073741824 ∧
    wrap32 (0 + wrap32 (dimensionOf false * 1073741824)) = -2147483648 ∧
    (Java_org_proj4_PJ_transform (envOf true 0 unitSphere) (objAt 1) (some (objAt 2)) false
        (some [0, 0, 0, 0]) 0 1073741824).calls =
      [overflowCall] ∧
    (0 : Int) ≤ 2 ∧ (2 : Int) < overflowCall.point_count ∧
    (0 : Int) ≤ 0 ∧ (0 : Int) < overflowCall.point_offset ∧
    overflowCall.slot 2 0 = 4 ∧
    ¬ overflowCall.slot 2 0 < GetArrayLength [(0 : Int), 0, 0, 0] := by
  decide

/-! ## Claims on the ellipsoid accessors -/

theorem getPJ_envOf_objAt {α : Type} (classes : Bool) (err : Int) (pj : PJ α) (p : Int)
    (hp : p ≠ 0) : getPJ (envOf classes err pj) (objAt p) = some pj := by
  simp [getPJ, GetFieldID, GetLongField, objAt, envOf, hp]

/-- C7: in real arithmetic, for a semi-major axis `a > 0` and a semi-minor axis `b` with
`0 ≤ b ≤ a`, when the stored squared eccentricity is `es = 1 - (b/a)^2` the value computed by
`Java_org_proj4_PJ_getSemiMinorAxis`, `sqrt(a*a*(1 - es))`, is `b`. -/
theorem getSemiMinorAxis_eq_of_axes (env : JNIEnv ℝ) (object : JObject) (pj : PJ ℝ)
    (nan a b : ℝ) (h : getPJ env object = some pj) (ha : 0 < a) (hb : 0 ≤ b) (_hba : b ≤ a)
    (hA : pj.a_orig = a) (hes : pj.es_orig = 1 - (b / a) ^ 2) :
    Java_org_proj4_PJ_getSemiMinorAxis { sqrt := Real.sqrt, NAN := nan } env object = b := by
  unfold Java_org_proj4_PJ_getSemiMinorAxis
  rw [h]
  simp only [hA, hes]
  have hsq : a * a * (1 - (1 - (b / a) ^ 2)) = b ^ 2 := by
    field_simp
    ring
  rw [hsq]
  exact Real.sqrt_sq hb

/-- In exact real arithmetic, for a handle that wraps a native projection with
`a_orig > 0` and `0 ≤ es_orig < 1`, the formula of `Java_org_proj4_PJ_getSemiMinorAxis` gives
at most the value of `Java_org_proj4_PJ_getSemiMajorAxis`. -/
theorem semiMinor_le_semiMajor_exact (env : JNIEnv ℝ) (object : JObject) (pj : PJ ℝ)
    (nan : ℝ) (h : getPJ env object = some pj) (ha : 0 < pj.a_orig) (hes0 : 0 ≤ pj.es_orig)
    (_hes1 : pj.es_orig < 1) :
    Java_org_proj4_PJ_getSemiMinorAxis { sqrt := Real.sqrt, NAN := nan } env object ≤
      Java_org_proj4_PJ_getSemiMajorAxis { sqrt := Real.sqrt, NAN := nan } env object := by
  unfold Java_org_proj4_PJ_getSemiMinorAxis Java_org_proj4_PJ_getSemiMajorAxis
  rw [h]
  simp only
  have hle : pj.a_orig * pj.a_orig * (1 - pj.es_orig) ≤ pj.a_orig * pj.a_orig := by
    have : 0 ≤ pj.a_orig * pj.a_orig := mul_self_nonneg _
    nlinarith
  calc Real.sqrt (pj.a_orig * pj.a_orig * (1 - pj.es_orig))
      ≤ Real.sqrt (pj.a_orig * pj.a_orig) := Real.sqrt_le_sqrt hle
    _ = pj.a_orig := Real.sqrt_mul_self ha.le

/-- The axes of the specification, `a = 6378137` and `b = 6356752.314`: the recomputed
semi-minor axis is within `1e-6` of `b`. -/
theorem getSemiMinorAxis_eq_of_axes_witness :
    ((0 : ℝ) < 6378137 ∧ (0 : ℝ) ≤ 6356752.314 ∧ (6356752.314 : ℝ) ≤ 6378137) ∧
    |Java_org_proj4_PJ_getSemiMinorAxis { sqrt := Real.sqrt, NAN := 0 }
        (envOf true 0 { a_orig := 6378137, es_orig := 1 - (6356752.314 / 6378137) ^ 2,
                        es := 1 - (6356752.314 / 6378137) ^ 2,
                        one_es := (6356752.314 / 6378137) ^ 2 })
        (objAt 1) - 6356752.314| ≤ 1e-6 :=
  ⟨⟨by norm_num, by norm_num, by norm_num⟩, by
    rw [getSemiMinorAxis_eq_of_axes _ (objAt 1) _ 0 6378137 6356752.314
      (getPJ_envOf_objAt true 0 _ 1 (by decide)) (by norm_num) (by norm_num) (by norm_num)
      rfl rfl]
    norm_num⟩

/-- Without overflow in the bounds check, every slot handed to `pj_transform` is inside the
buffer. -/
theorem transform_slots_in_buffer_of_fit {α : Type} (env : JNIEnv α) (object tgt : JObject)
    (hasZ : Bool) (array : List α) (offset numPts : Int)
    (hfit : 0 ≤ offset → 0 ≤ numPts → offset + dimensionOf hasZ * numPts ≤ 2147483647)
    (c : NativeCall α)
    (hc : c ∈ (Java_org_proj4_PJ_transform env object (some tgt) hasZ (some array) offset
      numPts).calls)
    (i k : Int) (hi0 : 0 ≤ i) (hi : i < c.point_count) (hk0 : 0 ≤ k) (hk : k < c.point_offset) :
    0 ≤ c.slot i k ∧ c.slot i k < GetArrayLength array := by
  by_cases hob : outOfBounds hasZ array offset numPts
  · rw [transform_of_outOfBounds env object tgt hasZ array offset numPts hob] at hc
    cases hf : FindClass env "java/lang/ArrayIndexOutOfBoundsException" <;>
      rw [hf] at hc <;> simp at hc
  · have hin := hob
    rw [outOfBounds_iff_of_fit hasZ array offset numPts hfit] at hin
    cases hsrc : getPJ env object with
    | none =>
      rw [transform_of_no_pj env object tgt hasZ array offset numPts hob (Or.inl hsrc)] at hc
      simp at hc
    | some src_pj =>
      cases hdst : getPJ env tgt with
      | none =>
        rw [transform_of_no_pj env object tgt hasZ array offset numPts hob (Or.inr hdst)] at hc
        simp at hc
      | some dst_pj =>
        cases hdata : env.critical array with
        | false =>
          rw [transform_of_no_data env object tgt hasZ array offset numPts hob hdata] at hc
          simp at hc
        | true =>
          rw [transform_of_reached env object tgt hasZ array offset numPts src_pj dst_pj hob
            hsrc hdst hdata] at hc
          simp only [List.mem_singleton] at hc
          subst hc
          simp only [NativeCall.slot, GetArrayLength] at *
          rcases dimensionOf_cases hasZ with hd | hd <;> rw [hd] at hin hk ⊢ <;> omega

/-! ## Lemmas on doubles -/

namespace Dbl

theorem two_zpow_pos (k : ℤ) : (0 : ℚ) < 2 ^ k := zpow_pos (by norm_num) k

theorem zpow_log_le {x : ℚ} (hx : 0 < x) : (2 : ℚ) ^ Int.log 2 x ≤ x := by
  have h := Int.zpow_log_le_self (b := 2) (by norm_num) hx
  simpa using h

theorem lt_zpow_log_succ (x : ℚ) : x < (2 : ℚ) ^ (Int.log 2 x + 1) := by
  have h := Int.lt_zpow_succ_log_self (b := 2) (by norm_num) x
  simpa using h

theorem log_lt_of_lt_zpow {x : ℚ} (hx : 0 < x) {j : ℤ} (h : x < 2 ^ j) : Int.log 2 x < j := by
  have := (Int.lt_zpow_iff_log_lt (b := 2) (by norm_num) (x := j) hx).1 (by simpa using h)
  exact this

theorem le_log_of_zpow_le {x : ℚ} (hx : 0 < x) {j : ℤ} (h : 2 ^ j ≤ x) : j ≤ Int.log 2 x := by
  have := (Int.zpow_le_iff_le_log (b := 2) (by norm_num) (x := j) hx).1 (by simpa using h)
  exact this

theorem log_eq_of_bounds {x : ℚ} {j : ℤ} (h1 : 2 ^ j ≤ x) (h2 : x < 2 ^ (j + 1)) :
    Int.log 2 x = j := by
  have hx : 0 < x := lt_of_lt_of_le (two_zpow_pos j) h1
  have a := le_log_of_zpow_le hx h1
  have b := log_lt_of_lt_zpow hx h2
  omega

theorem zpow_le_zpow {i j : ℤ} (h : i ≤ j) : (2 : ℚ) ^ i ≤ 2 ^ j :=
  zpow_le_zpow_right₀ (by norm_num) h

theorem zpow_lt_zpow {i j : ℤ} (h : i < j) : (2 : ℚ) ^ i < 2 ^ j :=
  zpow_lt_zpow_right₀ (by norm_num) h

theorem qexp_mono {x y : ℚ} (hx : 0 < x) (h : x ≤ y) : qexp x ≤ qexp y := by
  unfold qexp
  have := Int.log_mono_right (b := 2) hx h
  omega

theorem qexp_ge (x : ℚ) : -1074 ≤ qexp x := by
  unfold qexp; omega

theorem log_sub_le_qexp (x : ℚ) : Int.log 2 x - 52 ≤ qexp x := by
  unfold qexp; omega


theorem roundHalfEven_cases (y : ℚ) :
    roundHalfEven y = ⌊y⌋ ∧ y - ⌊y⌋ ≤ 1 / 2 ∨ roundHalfEven y = ⌊y⌋ + 1 ∧ 1 / 2 ≤ y - ⌊y⌋ := by
  unfold roundHalfEven
  by_cases h1 : y - ⌊y⌋ < 1 / 2
  · left; simp only [h1, if_true]; exact ⟨trivial, h1.le⟩
  · by_cases h2 : 1 / 2 < y - ⌊y⌋
    · right; simp only [h1, h2, if_true, if_false]; exact ⟨trivial, h2.le⟩
    · have h3 : y - ⌊y⌋ = 1 / 2 := le_antisymm (not_lt.1 h2) (not_lt.1 h1)
      by_cases h4 : ⌊y⌋ % 2 = 0
      · left; simp only [h1, h2, h4, if_true, if_false]; exact ⟨trivial, h3.le⟩
      · right; simp only [h1, h2, h4, if_false]; exact ⟨trivial, h3.ge⟩

theorem roundHalfEven_le_add_half (y : ℚ) : (roundHalfEven y : ℚ) ≤ y + 1 / 2 := by
  have hf : (⌊y⌋ : ℚ) ≤ y := Int.floor_le y
  rcases roundHalfEven_cases y with ⟨h, _⟩ | ⟨h, h2⟩
  · rw [h]; linarith
  · rw [h]; push_cast; linarith

theorem roundHalfEven_le_of_le_int (y : ℚ) (N : ℤ) (h : y ≤ N) : roundHalfEven y ≤ N := by
  have hf : ⌊y⌋ ≤ N := Int.floor_le_iff.2 (by linarith)
  rcases roundHalfEven_cases y with ⟨h1, _⟩ | ⟨h1, h2⟩
  · rw [h1]; exact hf
  · rw [h1]
    by_contra hc
    have hN : N = ⌊y⌋ := by omega
    have : (N : ℚ) = (⌊y⌋ : ℚ) := by rw [hN]
    linarith

theorem roundHalfEven_ge_of_int_le (y : ℚ) (N : ℤ) (h : (N : ℚ) ≤ y) : N ≤ roundHalfEven y := by
  have hf : N ≤ ⌊y⌋ := Int.le_floor.2 h
  rcases roundHalfEven_cases y with ⟨h1, _⟩ | ⟨h1, _⟩ <;> rw [h1] <;> omega

theorem roundHalfEven_intCast (N : ℤ) : roundHalfEven (N : ℚ) = N :=
  le_antisymm (roundHalfEven_le_of_le_int _ N le_rfl) (roundHalfEven_ge_of_int_le _ N le_rfl)

theorem rnd_nonneg {x : ℚ} (hx : 0 ≤ x) : 0 ≤ rnd x := by
  unfold rnd
  have h0 : (0 : ℚ) ≤ x / 2 ^ qexp x := div_nonneg hx (two_zpow_pos _).le
  have := roundHalfEven_ge_of_int_le (x / 2 ^ qexp x) 0 (by simpa using h0)
  exact mul_nonneg (by exact_mod_cast this) (two_zpow_pos _).le

theorem rnd_zero : rnd 0 = 0 := by
  unfold rnd
  rw [zero_div]
  have := roundHalfEven_intCast 0
  simp only [Int.cast_zero] at this
  rw [this]; simp

/-- Rounding does not exceed the input by more than half a unit in the last place. -/
theorem rnd_le_add_half (x : ℚ) : rnd x ≤ x + 2 ^ qexp x / 2 := by
  unfold rnd
  have hp := two_zpow_pos (qexp x)
  have h := roundHalfEven_le_add_half (x / 2 ^ qexp x)
  have h2 : (roundHalfEven (x / 2 ^ qexp x) : ℚ) * 2 ^ qexp x ≤
      (x / 2 ^ qexp x + 1 / 2) * 2 ^ qexp x := mul_le_mul_of_nonneg_right h hp.le
  have h3 : (x / 2 ^ qexp x + 1 / 2) * 2 ^ qexp x = x + 2 ^ qexp x / 2 := by
    field_simp
    ring
  linarith

/-- Rounding does not cross a multiple of a power of two that is not finer than the unit in
the last place of the input. -/
theorem rnd_le_of_multiple {x : ℚ} (n j : ℤ) (hj : qexp x ≤ j)
    (h : x ≤ n * 2 ^ j) : rnd x ≤ n * 2 ^ j := by
  unfold rnd
  have hp := two_zpow_pos (qexp x)
  obtain ⟨d, hd⟩ : ∃ d : ℕ, j = qexp x + d := ⟨(j - qexp x).toNat, by omega⟩
  have hpow : (2 : ℚ) ^ j = 2 ^ d * 2 ^ qexp x := by
    rw [hd, zpow_add₀ (by norm_num), zpow_natCast]; ring
  have hN : x / 2 ^ qexp x ≤ ((n * 2 ^ d : ℤ) : ℚ) := by
    rw [div_le_iff₀ hp]
    push_cast
    rw [hpow] at h
    linarith
  have := roundHalfEven_le_of_le_int _ _ hN
  have h2 : (roundHalfEven (x / 2 ^ qexp x) : ℚ) ≤ ((n * 2 ^ d : ℤ) : ℚ) := by exact_mod_cast this
  rw [hpow]
  push_cast at h2
  calc (roundHalfEven (x / 2 ^ qexp x) : ℚ) * 2 ^ qexp x
      ≤ (n * 2 ^ d) * 2 ^ qexp x := mul_le_mul_of_nonneg_right h2 hp.le
    _ = n * (2 ^ d * 2 ^ qexp x) := by ring

/-- Rounding does not cross a double. -/
theorem rnd_le_of_le_isDouble {x f : ℚ} (hx : 0 < x) (hf : IsDouble f) (h : x ≤ f) :
    rnd x ≤ f := by
  obtain ⟨n, hn⟩ := hf
  rw [hn]
  apply rnd_le_of_multiple n (qexp f) (qexp_mono hx h)
  rw [← hn]; exact h


theorem isDouble_zero : IsDouble 0 := ⟨0, by simp⟩

/-- A positive multiple of `2 ^ j`, with `j` in the exponent range, that has at most 53
significant bits is a double. -/
theorem isDouble_of_multiple {f : ℚ} (n j : ℤ) (hf : 0 < f) (hn : f = n * 2 ^ j)
    (hj : -1074 ≤ j) (hle : f ≤ 2 ^ (j + 53)) : IsDouble f := by
  rcases lt_or_eq_of_le hle with hlt | heq
  · have hlog := log_lt_of_lt_zpow hf hlt
    have hq : qexp f ≤ j := by unfold qexp; omega
    obtain ⟨d, hd⟩ : ∃ d : ℕ, j = qexp f + d := ⟨(j - qexp f).toNat, by omega⟩
    refine ⟨n * 2 ^ d, ?_⟩
    have hpow : (2 : ℚ) ^ j = 2 ^ d * 2 ^ qexp f := by
      rw [hd, zpow_add₀ (by norm_num), zpow_natCast]; ring
    calc f = n * 2 ^ j := hn
      _ = ((n * 2 ^ d : ℤ) : ℚ) * 2 ^ qexp f := by rw [hpow]; push_cast; ring
  · have hlog : Int.log 2 f = j + 53 := by
      rw [heq]
      have := Int.log_zpow (R := ℚ) (b := 2) (by norm_num) (j + 53)
      simpa using this
    have hq : qexp f = j + 1 := by unfold qexp; omega
    refine ⟨2 ^ 52, ?_⟩
    rw [hq, heq]
    have : (j + 53 : ℤ) = 52 + (j + 1) := by ring
    rw [this, zpow_add₀ (by norm_num)]
    norm_num

theorem isDouble_two_zpow (j : ℤ) (hj : -1074 ≤ j) : IsDouble ((2 : ℚ) ^ j) :=
  isDouble_of_multiple 1 j (two_zpow_pos j) (by simp) hj (zpow_le_zpow (by omega))

/-- The result of rounding is a double. -/
theorem isDouble_rnd {x : ℚ} (hx : 0 < x) : IsDouble (rnd x) := by
  rcases eq_or_lt_of_le (rnd_nonneg hx.le) with h0 | hpos
  · rw [← h0]; exact isDouble_zero
  · apply isDouble_of_multiple (roundHalfEven (x / 2 ^ qexp x)) (qexp x) hpos rfl (qexp_ge x)
    have hp := two_zpow_pos (qexp x)
    have hlt : x < 2 ^ (qexp x + 53) :=
      lt_of_lt_of_le (lt_zpow_log_succ x) (zpow_le_zpow (by have := log_sub_le_qexp x; omega))
    have hpow : (2 : ℚ) ^ (qexp x + 53) = ((2 ^ 53 : ℤ) : ℚ) * 2 ^ qexp x := by
      rw [zpow_add₀ (by norm_num)]; push_cast; rw [mul_comm]; norm_num
    rw [hpow]
    apply rnd_le_of_multiple (2 ^ 53) (qexp x) le_rfl
    rw [← hpow]; exact hlt.le

theorem rnd_eq_self_of_isDouble {f : ℚ} (hf : IsDouble f) : rnd f = f := by
  obtain ⟨n, hn⟩ := hf
  unfold rnd
  have hp := two_zpow_pos (qexp f)
  have : f / 2 ^ qexp f = (n : ℚ) := by
    rw [div_eq_iff hp.ne']; exact hn
  rw [this, roundHalfEven_intCast]
  exact hn.symm


theorem zpow_double (k : ℤ) : (2 : ℚ) ^ (2 * k) = 2 ^ k * 2 ^ k := by
  rw [two_mul, zpow_add₀ (by norm_num)]

theorem natSqrt_floor_sq_le {y : ℚ} (hy : 0 ≤ y) :
    ((Nat.sqrt ⌊y⌋.toNat : ℤ) : ℚ) ^ 2 ≤ y := by
  have h1 : Nat.sqrt ⌊y⌋.toNat ^ 2 ≤ ⌊y⌋.toNat := Nat.sqrt_le' _
  have h2 : ((⌊y⌋.toNat : ℤ)) = ⌊y⌋ := Int.toNat_of_nonneg (Int.floor_nonneg.2 hy)
  have h3 : ((Nat.sqrt ⌊y⌋.toNat ^ 2 : ℕ) : ℤ) ≤ ⌊y⌋ := by
    rw [← h2]; exact_mod_cast h1
  have h4 : (((Nat.sqrt ⌊y⌋.toNat ^ 2 : ℕ) : ℤ) : ℚ) ≤ (⌊y⌋ : ℚ) := by exact_mod_cast h3
  have h5 : (⌊y⌋ : ℚ) ≤ y := Int.floor_le y
  push_cast at h4
  push_cast
  linarith

/-- The rounded square root stays at or below `A` units when the input is below the square
of `A + 1/2` units. -/
theorem sqrtRnd_le_of_lt_sq (x : ℚ) (hx : 0 ≤ x) (A : ℤ) (hA : 0 ≤ A)
    (h : x / 2 ^ (2 * sqexp x) < ((A : ℚ) + 1 / 2) ^ 2) :
    sqrtRnd x ≤ A * 2 ^ sqexp x := by
  have hp := two_zpow_pos (sqexp x)
  have hy : 0 ≤ x / 2 ^ (2 * sqexp x) := div_nonneg hx (two_zpow_pos _).le
  have hN := natSqrt_floor_sq_le hy
  set y := x / 2 ^ (2 * sqexp x) with hydef
  set N : ℤ := (Nat.sqrt ⌊y⌋.toNat : ℤ) with hNdef
  have hN0 : (0 : ℚ) ≤ (N : ℚ) := by
    have : (0 : ℤ) ≤ N := by rw [hNdef]; exact Int.natCast_nonneg _
    exact_mod_cast this
  have hA0 : (0 : ℚ) ≤ (A : ℚ) := by exact_mod_cast hA
  have hlt : (N : ℚ) < A + 1 / 2 := by
    by_contra hc
    have hc2 : (A : ℚ) + 1 / 2 ≤ N := not_lt.1 hc
    have : ((A : ℚ) + 1 / 2) ^ 2 ≤ (N : ℚ) ^ 2 := by
      apply pow_le_pow_left₀ (by linarith) hc2
    linarith
  have hNA : N ≤ A := by
    by_contra hc
    have : A + 1 ≤ N := by omega
    have : ((A + 1 : ℤ) : ℚ) ≤ (N : ℚ) := by exact_mod_cast this
    push_cast at this
    linarith
  have hres : sqrtRnd x =
      ((if y < ((N : ℚ) + 1 / 2) ^ 2 then N
        else if ((N : ℚ) + 1 / 2) ^ 2 < y then N + 1
        else if N % 2 = 0 then N else N + 1 : ℤ) : ℚ) * 2 ^ sqexp x := by
    unfold sqrtRnd
    simp only [← hydef, ← hNdef]
  rw [hres]
  apply mul_le_mul_of_nonneg_right _ hp.le
  have : (if y < ((N : ℚ) + 1 / 2) ^ 2 then N
        else if ((N : ℚ) + 1 / 2) ^ 2 < y then N + 1
        else if N % 2 = 0 then N else N + 1 : ℤ) ≤ A := by
    rcases lt_or_eq_of_le hNA with hlt2 | heq
    · split_ifs <;> omega
    · have hy2 : y < ((N : ℚ) + 1 / 2) ^ 2 := by rw [heq]; exact h
      simp only [hy2, if_true]; exact hNA
  exact_mod_cast this


theorem qexp_of_normal {a : ℚ} (hnorm : (2 : ℚ) ^ (-1022 : ℤ) ≤ a) :
    qexp a = Int.log 2 a - 52 := by
  have ha : 0 < a := lt_of_lt_of_le (two_zpow_pos _) hnorm
  have := le_log_of_zpow_le ha hnorm
  unfold qexp; omega

/-- The rounded square root of a magnitude below the square of the midpoint between a normal
double `a` and the next one is at most `a`. -/
theorem sqrtRnd_le_of_lt_mid {a q : ℚ} (ha : IsDouble a) (hnorm : (2 : ℚ) ^ (-1022 : ℤ) ≤ a)
    (hq : 0 < q) (h : q < (a + 2 ^ qexp a / 2) ^ 2) : sqrtRnd q ≤ a := by
  have ha0 : 0 < a := lt_of_lt_of_le (two_zpow_pos _) hnorm
  have hka := qexp_of_normal hnorm
  obtain ⟨n, hn⟩ := ha
  have hpa := two_zpow_pos (qexp a)
  have hn0 : 0 < n := by
    by_contra hc
    have : (n : ℚ) ≤ 0 := by exact_mod_cast not_lt.1 hc
    have : (n : ℚ) * 2 ^ qexp a ≤ 0 := mul_nonpos_of_nonpos_of_nonneg this hpa.le
    linarith
  have hloga := zpow_log_le ha0
  have hloga2 := lt_zpow_log_succ a
  have hlogq := zpow_log_le hq
  have hlogq2 := lt_zpow_log_succ q
  rcases lt_or_le (qexp a) (sqexp q) with hgt | hle
  · -- the square root would lie in a higher binade than `a`
    exfalso
    have he : 2 * (Int.log 2 a + 1) ≤ Int.log 2 q := by unfold sqexp at hgt; omega
    have hpow : (2 : ℚ) ^ (Int.log 2 a + 1) = ((2 ^ 53 : ℤ) : ℚ) * 2 ^ qexp a := by
      have : Int.log 2 a + 1 = 53 + qexp a := by omega
      rw [this, zpow_add₀ (by norm_num)]; norm_num
    have hn53 : n < 2 ^ 53 := by
      by_contra hc
      have : ((2 ^ 53 : ℤ) : ℚ) ≤ (n : ℚ) := by exact_mod_cast not_lt.1 hc
      have : ((2 ^ 53 : ℤ) : ℚ) * 2 ^ qexp a ≤ (n : ℚ) * 2 ^ qexp a :=
        mul_le_mul_of_nonneg_right this hpa.le
      linarith
    have hn53b : (n : ℚ) + 1 ≤ ((2 ^ 53 : ℤ) : ℚ) := by
      have : n + 1 ≤ 2 ^ 53 := by omega
      exact_mod_cast this
    have hmid : a + 2 ^ qexp a / 2 < 2 ^ (Int.log 2 a + 1) := by
      rw [hpow]
      have h1 : ((n : ℚ) + 1) * 2 ^ qexp a ≤ ((2 ^ 53 : ℤ) : ℚ) * 2 ^ qexp a :=
        mul_le_mul_of_nonneg_right hn53b hpa.le
      have h2 : ((n : ℚ) + 1) * 2 ^ qexp a = a + 2 ^ qexp a := by
        rw [add_mul, one_mul, ← hn]
      have h3 : a + 2 ^ qexp a / 2 < a + 2 ^ qexp a := by linarith
      calc a + 2 ^ qexp a / 2 < a + 2 ^ qexp a := h3
        _ = ((n : ℚ) + 1) * 2 ^ qexp a := h2.symm
        _ ≤ _ := h1
    have hsq : (a + 2 ^ qexp a / 2) ^ 2 < ((2 : ℚ) ^ (Int.log 2 a + 1)) ^ 2 :=
      pow_lt_pow_left₀ hmid (by positivity) (by norm_num)
    have hsq2 : ((2 : ℚ) ^ (Int.log 2 a + 1)) ^ 2 = 2 ^ (2 * (Int.log 2 a + 1)) := by
      rw [zpow_double, sq]
    have hle2 : (2 : ℚ) ^ (2 * (Int.log 2 a + 1)) ≤ 2 ^ Int.log 2 q := zpow_le_zpow he
    linarith
  · -- `a` is a whole number `A` of the units of the square root
    obtain ⟨d, hd⟩ : ∃ d : ℕ, qexp a = sqexp q + d := ⟨(qexp a - sqexp q).toNat, by omega⟩
    have hpq := two_zpow_pos (sqexp q)
    have hpow : (2 : ℚ) ^ qexp a = 2 ^ d * 2 ^ sqexp q := by
      rw [hd, zpow_add₀ (by norm_num), zpow_natCast]; ring
    have haA : a = ((n * 2 ^ d : ℤ) : ℚ) * 2 ^ sqexp q :=
      calc a = n * 2 ^ qexp a := hn
        _ = ((n * 2 ^ d : ℤ) : ℚ) * 2 ^ sqexp q := by rw [hpow]; push_cast; ring
    have hlt : q < (a + 2 ^ sqexp q / 2) ^ 2 := by
      rcases Nat.eq_zero_or_pos d with hd0 | hdpos
      · have : qexp a = sqexp q := by rw [hd, hd0]; simp
        rw [← this]; exact h
      · have he : Int.log 2 q + 1 ≤ 2 * Int.log 2 a := by unfold sqexp at hd; omega
        have h1 : q < 2 ^ (2 * Int.log 2 a) := lt_of_lt_of_le hlogq2 (zpow_le_zpow he)
        have h2 : (2 : ℚ) ^ (2 * Int.log 2 a) ≤ a ^ 2 := by
          rw [zpow_double, sq]
          exact mul_le_mul hloga hloga (two_zpow_pos _).le ha0.le
        have h3 : a ^ 2 ≤ (a + 2 ^ sqexp q / 2) ^ 2 :=
          pow_le_pow_left₀ ha0.le (by linarith) 2
        linarith
    have hy : q / 2 ^ (2 * sqexp q) < (((n * 2 ^ d : ℤ) : ℚ) + 1 / 2) ^ 2 := by
      rw [div_lt_iff₀ (two_zpow_pos _), zpow_double]
      have : (a + 2 ^ sqexp q / 2) ^ 2 =
          (((n * 2 ^ d : ℤ) : ℚ) + 1 / 2) ^ 2 * (2 ^ sqexp q * 2 ^ sqexp q) := by
        rw [haA]; ring
      linarith
    have := sqrtRnd_le_of_lt_sq q hq.le (n * 2 ^ d) (by positivity) hy
    rw [haA]; exact this


/-- The rounded square of a double whose square is in the normal range is below the square
of the midpoint between this double and the next one. -/
theorem rnd_sq_lt_mid {a : ℚ} (ha0 : 0 < a) (hlo : (2 : ℚ) ^ (-1022 : ℤ) ≤ a * a) :
    rnd (a * a) < (a + 2 ^ qexp a / 2) ^ 2 := by
  have hB := rnd_le_add_half (a * a)
  have hq := qexp_of_normal hlo
  have haa : 0 < a * a := mul_pos ha0 ha0
  have hloga := zpow_log_le ha0
  have hloga2 := lt_zpow_log_succ a
  have hp := two_zpow_pos (Int.log 2 a)
  have hlt : a * a < 2 ^ (2 * (Int.log 2 a + 1)) := by
    rw [zpow_double]
    exact mul_lt_mul hloga2 hloga2.le ha0 (two_zpow_pos _).le
  have hlog := log_lt_of_lt_zpow haa hlt
  have hk : qexp (a * a) ≤ 1 + (Int.log 2 a + (Int.log 2 a - 52)) := by omega
  have h1 : (2 : ℚ) ^ qexp (a * a) ≤ 2 ^ (1 + (Int.log 2 a + (Int.log 2 a - 52))) :=
    zpow_le_zpow hk
  have h2 : (2 : ℚ) ^ (1 + (Int.log 2 a + (Int.log 2 a - 52))) =
      2 * (2 ^ Int.log 2 a * 2 ^ (Int.log 2 a - 52)) := by
    rw [zpow_add₀ (by norm_num), zpow_add₀ (by norm_num)]; norm_num
  have h3 : (2 : ℚ) ^ (Int.log 2 a - 52) ≤ 2 ^ qexp a := zpow_le_zpow (log_sub_le_qexp a)
  have hpa := two_zpow_pos (qexp a)
  have h4 : (2 : ℚ) ^ Int.log 2 a * 2 ^ (Int.log 2 a - 52) ≤ a * 2 ^ qexp a :=
    mul_le_mul hloga h3 (two_zpow_pos _).le ha0.le
  have h5 : (a + 2 ^ qexp a / 2) ^ 2 = a * a + a * 2 ^ qexp a + (2 ^ qexp a) ^ 2 / 4 := by ring
  have h6 : 0 < ((2 : ℚ) ^ qexp a) ^ 2 / 4 := by positivity
  rw [h5]
  linarith

theorem normal_of_sq_normal {a : ℚ} (ha0 : 0 < a) (hlo : (2 : ℚ) ^ (-1022 : ℤ) ≤ a * a) :
    (2 : ℚ) ^ (-1022 : ℤ) ≤ a := by
  by_contra hc
  have h1 : a < 2 ^ (-1022 : ℤ) := not_le.1 hc
  have h2 : (2 : ℚ) ^ (-1022 : ℤ) < 1 := by
    have := zpow_lt_zpow (i := -1022) (j := 0) (by norm_num)
    simpa using this
  have h3 : a * a < a * 1 := mul_lt_mul_of_pos_left (by linarith) ha0
  linarith

/-- The rounded square stays finite below the overflow threshold. -/
theorem rnd_lt_overflow {x : ℚ} (hx : 0 < x) (h : x < 2 ^ 1024 - 2 ^ 970) :
    rnd x < 2 ^ 1024 := by
  have hB := rnd_le_add_half x
  have hlt : x < (2 : ℚ) ^ (1024 : ℤ) := by
    have : (2 : ℚ) ^ (1024 : ℤ) = 2 ^ 1024 := by norm_num
    rw [this]
    have : (0 : ℚ) < 2 ^ 970 := by positivity
    linarith
  have hlog := log_lt_of_lt_zpow hx hlt
  have hk : qexp x ≤ 971 := by unfold qexp; omega
  have h1 : (2 : ℚ) ^ qexp x ≤ 2 ^ (971 : ℤ) := zpow_le_zpow hk
  have h2 : (2 : ℚ) ^ (971 : ℤ) = 2 * 2 ^ 970 := by norm_num
  linarith

theorem roundHalfEven_eq_of_near (y : ℚ) (n : ℤ) (h1 : (n : ℚ) - 1 / 2 < y)
    (h2 : y < (n : ℚ) + 1 / 2) : roundHalfEven y = n := by
  have hf1 : (⌊y⌋ : ℚ) ≤ y := Int.floor_le y
  have hf2 : y < (⌊y⌋ : ℚ) + 1 := Int.lt_floor_add_one y
  rcases roundHalfEven_cases y with ⟨h, hd⟩ | ⟨h, hd⟩
  · rw [h]
    have a1 : ((⌊y⌋ : ℤ) : ℚ) < (n : ℚ) + 1 := by linarith
    have a2 : ((n : ℤ) : ℚ) < (⌊y⌋ : ℚ) + 1 := by linarith
    have b1 : ⌊y⌋ < n + 1 := by exact_mod_cast a1
    have b2 : n < ⌊y⌋ + 1 := by exact_mod_cast a2
    omega
  · rw [h]
    have a1 : ((⌊y⌋ : ℤ) : ℚ) < (n : ℚ) := by linarith
    have a2 : ((n : ℤ) : ℚ) < (⌊y⌋ : ℚ) + 2 := by linarith
    have b1 : ⌊y⌋ < n := by exact_mod_cast a1
    have b2 : n < ⌊y⌋ + 2 := by exact_mod_cast a2
    omega

theorem rnd_eq_of_near (x : ℚ) (n k : ℤ) (hk : qexp x = k)
    (h1 : ((n : ℚ) - 1 / 2) * 2 ^ k < x) (h2 : x < ((n : ℚ) + 1 / 2) * 2 ^ k) :
    rnd x = n * 2 ^ k := by
  unfold rnd
  rw [hk]
  have hp := two_zpow_pos k
  rw [roundHalfEven_eq_of_near (x / 2 ^ k) n]
  · rw [lt_div_iff₀ hp]; exact h1
  · rw [div_lt_iff₀ hp]; exact h2

theorem rnd_two_zpow (j : ℤ) (hj : -1074 ≤ j) : rnd ((2 : ℚ) ^ j) = 2 ^ j :=
  rnd_eq_self_of_isDouble (isDouble_two_zpow j hj)

theorem rnd_one : rnd 1 = 1 := by
  have := rnd_two_zpow 0 (by norm_num)
  simpa using this

/-- The rounded square root of the square of `A` units is `A` units. -/
theorem sqrtRnd_of_sq (A : ℕ) (k : ℤ) (x : ℚ) (hk : sqexp x = k)
    (hx : x = ((A : ℚ) * 2 ^ k) ^ 2) : sqrtRnd x = A * 2 ^ k := by
  have hp := two_zpow_pos k
  have hy : x / 2 ^ (2 * sqexp x) = ((A ^ 2 : ℕ) : ℚ) := by
    rw [hk, hx, zpow_double, div_eq_iff (mul_pos hp hp).ne']
    push_cast; ring
  have hfl : ⌊((A ^ 2 : ℕ) : ℚ)⌋.toNat = A ^ 2 := by
    rw [show ((A ^ 2 : ℕ) : ℚ) = (((A ^ 2 : ℕ) : ℤ) : ℚ) by push_cast; rfl, Int.floor_intCast]
    exact Int.toNat_natCast _
  unfold sqrtRnd
  rw [hk] at hy
  simp only [hk, hy, hfl, Nat.sqrt_eq']
  have hlt : ((A ^ 2 : ℕ) : ℚ) < (((A : ℕ) : ℤ) + 1 / 2 : ℚ) ^ 2 := by
    push_cast
    have : (0 : ℚ) ≤ (A : ℚ) := Nat.cast_nonneg A
    nlinarith
  simp only [hlt, if_true]
  push_cast; rfl

theorem sqexp_two_zpow (j : ℤ) : sqexp ((2 : ℚ) ^ (2 * j)) = j - 52 := by
  unfold sqexp
  have := Int.log_zpow (R := ℚ) (b := 2) (by norm_num) (2 * j)
  simp only [Nat.cast_ofNat] at this
  rw [this]
  omega

theorem sqrtRnd_two_zpow (j : ℤ) : sqrtRnd ((2 : ℚ) ^ (2 * j)) = 2 ^ j := by
  rw [sqrtRnd_of_sq (2 ^ 52) (j - 52) _ (sqexp_two_zpow j)]
  · have : j = 52 + (j - 52) := by ring
    nth_rewrite 2 [this]
    rw [zpow_add₀ (by norm_num)]; norm_num
  · have h1 : ((2 ^ 52 : ℕ) : ℚ) * 2 ^ (j - 52) = 2 ^ j := by
      have : j = 52 + (j - 52) := by ring
      nth_rewrite 2 [this]
      rw [zpow_add₀ (by norm_num)]; norm_num
    rw [h1, zpow_double, sq]

theorem sqrtRnd_one : sqrtRnd 1 = 1 := by
  have := sqrtRnd_two_zpow 0
  simpa using this

theorem isDouble_one : IsDouble 1 := by
  have := isDouble_two_zpow 0 (by norm_num)
  simpa using this

theorem ofMag_of_lt (neg : Bool) {x : ℚ} (h : rnd x < 2 ^ 1024) :
    ofMag neg x = fin neg (rnd x) := by
  unfold ofMag
  rw [if_neg (not_le.2 h)]

theorem val_not (s : Bool) (m : ℚ) : val (!s) m = -val s m := by
  cases s <;> simp [val]

/-- The double `1.0 - es` for `es` in `[0, 1)`: a finite double between 0 and 1. -/
theorem one_sub_fin (s : Bool) (es : ℚ) (h0 : 0 ≤ val s es) (h1 : val s es < 1) :
    (1 : Dbl) - fin s es = fin false (rnd (1 - val s es)) ∧
      0 ≤ rnd (1 - val s es) ∧ rnd (1 - val s es) ≤ 1 := by
  have hv : 0 < 1 - val s es := by linarith
  have hle : rnd (1 - val s es) ≤ 1 := rnd_le_of_le_isDouble hv isDouble_one (by linarith)
  refine ⟨?_, rnd_nonneg hv.le, hle⟩
  show add (fin false 1) (neg (fin s es)) = _
  have hsum : val false 1 + val (!s) es = 1 - val s es := by
    rw [val_not]; simp [val]; ring
  simp only [neg, add, hsum]
  rw [if_neg hv.ne']
  unfold ofRat
  rw [if_neg (not_lt.2 hv.le)]
  exact ofMag_of_lt false (lt_of_le_of_lt hle (by norm_num))

/-- On doubles, for a double `a > 0` whose square is in the normal range and `es` in
`[0, 1)`, the value `sqrt(a*a*(1.0 - es))` is at most `a`. -/
theorem sqrt_mul_le_self (a : ℚ) (s : Bool) (es : ℚ) (ha : IsDouble a) (ha0 : 0 < a)
    (hlo : (2 : ℚ) ^ (-1022 : ℤ) ≤ a * a) (hhi : a * a < 2 ^ 1024 - 2 ^ 970)
    (h0 : 0 ≤ val s es) (h1 : val s es < 1) :
    le (sqrt (fin false a * fin false a * (1 - fin s es))) (fin false a) = true := by
  obtain ⟨hsub, ht0, ht1⟩ := one_sub_fin s es h0 h1
  have haa : 0 < a * a := mul_pos ha0 ha0
  have hp : rnd (a * a) < 2 ^ 1024 := rnd_lt_overflow haa hhi
  have hp0 : 0 ≤ rnd (a * a) := rnd_nonneg haa.le
  have hpd : IsDouble (rnd (a * a)) := isDouble_rnd haa
  have hmul1 : fin false a * fin false a = fin false (rnd (a * a)) := by
    show mul (fin false a) (fin false a) = _
    simp only [mul, Bool.xor_self]
    exact ofMag_of_lt false hp
  have hpt : rnd (a * a) * rnd (1 - val s es) ≤ rnd (a * a) := by
    nlinarith
  have hq : rnd (rnd (a * a) * rnd (1 - val s es)) ≤ rnd (a * a) := by
    rcases eq_or_lt_of_le (mul_nonneg hp0 ht0) with hz | hpos
    · rw [← hz, rnd_zero]; exact hp0
    · exact rnd_le_of_le_isDouble hpos hpd hpt
  have hq0 : 0 ≤ rnd (rnd (a * a) * rnd (1 - val s es)) := rnd_nonneg (mul_nonneg hp0 ht0)
  have hmul2 : fin false (rnd (a * a)) * fin false (rnd (1 - val s es)) =
      fin false (rnd (rnd (a * a) * rnd (1 - val s es))) := by
    show mul (fin false _) (fin false _) = _
    simp only [mul, Bool.xor_self]
    exact ofMag_of_lt false (lt_of_le_of_lt hq hp)
  rw [hmul1, hsub, hmul2]
  simp only [sqrt]
  by_cases hz : rnd (rnd (a * a) * rnd (1 - val s es)) = 0
  · rw [if_pos hz]
    simp only [le, val, Bool.false_eq_true, if_false, decide_eq_true_eq]
    exact ha0.le
  · rw [if_neg hz]
    simp only [le, val, Bool.false_eq_true, if_false, decide_eq_true_eq]
    apply sqrtRnd_le_of_lt_mid ha (normal_of_sq_normal ha0 hlo)
      (lt_of_le_of_ne hq0 (Ne.symm hz))
    exact lt_of_le_of_lt hq (rnd_sq_lt_mid ha0 hlo)

theorem one_sub_zero : (1 : Dbl) - fin false 0 = fin false 1 := by
  have h := (one_sub_fin false 0 (by simp [val]) (by simp [val])).1
  rw [h]
  simp [val, rnd_one]

theorem qexp_of_small {x : ℚ} (hx : 0 < x) (h : x < 2 ^ (-1021 : ℤ)) : qexp x = -1074 := by
  have := log_lt_of_lt_zpow hx h
  unfold qexp; omega

theorem sqrt_one : sqrt 1 = 1 := by
  show sqrt (fin false 1) = fin false 1
  have h1 : (1 : ℚ) ≠ 0 := one_ne_zero
  simp only [sqrt, h1, if_false, Bool.false_eq_true, sqrtRnd_one]

theorem one_sub_one : (1 : Dbl) - 1 = fin false 0 := by
  show add (fin false 1) (neg (fin false 1)) = fin false 0
  have h : val false 1 + val true 1 = 0 := by
    simp only [val, if_true, Bool.false_eq_true, if_false]; ring
  simp only [neg, add, Bool.not_false, h, if_true, Bool.false_and]

theorem one_div_zero : (1 : Dbl) / fin false 0 = inf false := by
  show div (fin false 1) (fin false 0) = inf false
  have h1 : (1 : ℚ) ≠ 0 := one_ne_zero
  simp only [div, if_true, h1, if_false, Bool.xor_self]

/-- On doubles `1.0/(1.0 - sqrt(1.0))` is `+inf`. -/
theorem one_div_one_sub_sqrt_one : (1 : Dbl) / (1 - sqrt 1) = inf false := by
  rw [sqrt_one, one_sub_one, one_div_zero]

/-- The square of `2^700` overflows: `sqrt(a*a*(1.0 - 0.0))` is `+inf`. -/
theorem sqrt_mul_huge :
    sqrt (fin false (2 ^ (700 : ℤ)) * fin false (2 ^ (700 : ℤ)) * (1 - fin false 0))
      = inf false := by
  have hsq : (2 : ℚ) ^ (700 : ℤ) * 2 ^ (700 : ℤ) = 2 ^ (1400 : ℤ) := by
    rw [← zpow_add₀ (by norm_num)]; norm_num
  have hr : rnd ((2 : ℚ) ^ (1400 : ℤ)) = 2 ^ (1400 : ℤ) := rnd_two_zpow 1400 (by norm_num)
  have hge : (2 : ℚ) ^ 1024 ≤ 2 ^ (1400 : ℤ) := by
    rw [← zpow_ofNat]
    exact zpow_le_zpow (by norm_num)
  have hmul : fin false ((2 : ℚ) ^ (700 : ℤ)) * fin false (2 ^ (700 : ℤ)) = inf false := by
    show mul (fin false _) (fin false _) = _
    simp only [mul, Bool.xor_self, hsq]
    unfold ofMag
    rw [hr, if_pos hge]
  rw [hmul, one_sub_zero]
  show sqrt (mul (inf false) (fin false 1)) = _
  simp [mul, sqrt]

/-- The square of `15 * 2^(-540)` is subnormal and rounds up to `2^(-1072)`:
`sqrt(a*a*(1.0 - 0.0))` is `2^(-536)`. -/
theorem sqrt_mul_tiny :
    sqrt (fin false (15 * 2 ^ (-540 : ℤ)) * fin false (15 * 2 ^ (-540 : ℤ)) * (1 - fin false 0))
      = fin false (2 ^ (-536 : ℤ)) := by
  have hsq : (15 * (2 : ℚ) ^ (-540 : ℤ)) * (15 * 2 ^ (-540 : ℤ)) = 225 * 2 ^ (-1080 : ℤ) := by
    have : (2 : ℚ) ^ (-1080 : ℤ) = 2 ^ (-540 : ℤ) * 2 ^ (-540 : ℤ) := by
      rw [← zpow_add₀ (by norm_num)]; norm_num
    rw [this]; ring
  have h6 : (2 : ℚ) ^ (-1080 : ℤ) = 2 ^ (-1074 : ℤ) / 64 := by
    have : (2 : ℚ) ^ (-1074 : ℤ) = 2 ^ (6 : ℤ) * 2 ^ (-1080 : ℤ) := by
      rw [← zpow_add₀ (by norm_num)]; norm_num
    rw [this]; norm_num
  have hp := two_zpow_pos (-1074)
  have hk : qexp (225 * (2 : ℚ) ^ (-1080 : ℤ)) = -1074 := by
    apply qexp_of_small (by positivity)
    have : (2 : ℚ) ^ (-1021 : ℤ) = 2 ^ (53 : ℤ) * 2 ^ (-1074 : ℤ) := by
      rw [← zpow_add₀ (by norm_num)]; norm_num
    rw [this, h6]
    have : (1 : ℚ) ≤ 2 ^ (53 : ℤ) := by norm_num
    nlinarith
  have hr : rnd (225 * (2 : ℚ) ^ (-1080 : ℤ)) = 2 ^ (-1072 : ℤ) := by
    rw [rnd_eq_of_near _ 4 (-1074) hk]
    · have h2 : (2 : ℚ) ^ (-1072 : ℤ) = 2 ^ (2 : ℤ) * 2 ^ (-1074 : ℤ) := by
        rw [← zpow_add₀ (by norm_num)]; rfl
      have h4 : (2 : ℚ) ^ (2 : ℤ) = 4 := by norm_num
      rw [h2, h4]; push_cast; rfl
    · rw [h6]; push_cast; linarith
    · rw [h6]; push_cast; linarith
  have hlt : (2 : ℚ) ^ (-1072 : ℤ) < 2 ^ 1024 := by
    rw [← zpow_ofNat]
    exact zpow_lt_zpow (by norm_num)
  have hmul : fin false (15 * (2 : ℚ) ^ (-540 : ℤ)) * fin false (15 * 2 ^ (-540 : ℤ))
      = fin false (2 ^ (-1072 : ℤ)) := by
    show mul (fin false _) (fin false _) = _
    simp only [mul, Bool.xor_self, hsq]
    rw [ofMag_of_lt false (by rw [hr]; exact hlt), hr]
  have hr2 : rnd ((2 : ℚ) ^ (-1072 : ℤ) * 1) = 2 ^ (-1072 : ℤ) := by
    rw [mul_one]; exact rnd_two_zpow _ (by norm_num)
  have hmul2 : fin false ((2 : ℚ) ^ (-1072 : ℤ)) * fin false 1 = fin false (2 ^ (-1072 : ℤ)) := by
    show mul (fin false _) (fin false _) = _
    simp only [mul, Bool.xor_self]
    rw [ofMag_of_lt false (by rw [hr2]; exact hlt), hr2]
  rw [hmul, one_sub_zero, hmul2]
  have hne : (2 : ℚ) ^ (-1072 : ℤ) ≠ 0 := (two_zpow_pos _).ne'
  have hs : sqrtRnd ((2 : ℚ) ^ (-1072 : ℤ)) = 2 ^ (-536 : ℤ) := by
    have h := sqrtRnd_two_zpow (-536)
    have e : (2 * (-536) : ℤ) = -1072 := by norm_num
    rw [e] at h
    exact h
  simp only [sqrt, hne, if_false, Bool.false_eq_true, hs]

end Dbl

/-! ## Claims on the accessors, on doubles -/

theorem getSemiMinorAxis_of_wrapped {α : Type} [One α] [Sub α] [Mul α] (m : CMath α)
    (env : JNIEnv α) (object : JObject) (pj : PJ α) (h : getPJ env object = some pj) :
    Java_org_proj4_PJ_getSemiMinorAxis m env object =
      m.sqrt (pj.a_orig * pj.a_orig * (1 - pj.es_orig)) := by
  unfold Java_org_proj4_PJ_getSemiMinorAxis
  rw [h]

theorem getSemiMajorAxis_of_wrapped {α : Type} (m : CMath α)
    (env : JNIEnv α) (object : JObject) (pj : PJ α) (h : getPJ env object = some pj) :
    Java_org_proj4_PJ_getSemiMajorAxis m env object = pj.a_orig := by
  unfold Java_org_proj4_PJ_getSemiMajorAxis
  rw [h]

theorem getInverseFlattening_of_wrapped {α : Type} [One α] [Sub α] [Div α] (m : CMath α)
    (env : JNIEnv α) (object : JObject) (pj : PJ α) (h : getPJ env object = some pj) :
    Java_org_proj4_PJ_getInverseFlattening m env object = 1 / (1 - m.sqrt pj.one_es) := by
  unfold Java_org_proj4_PJ_getInverseFlattening
  rw [h]

/-- C8: on doubles, for a handle that wraps a native projection whose ellipsoid is a sphere
(`one_es = 1`), `Java_org_proj4_PJ_getInverseFlattening`, which computes
`1/(1 - sqrt(one_es))`, returns positive infinity: not NaN and not a finite number. -/
theorem getInverseFlattening_of_sphere (env : JNIEnv Dbl) (object : JObject) (pj : PJ Dbl)
    (h : getPJ env object = some pj) (hs : pj.one_es = 1) :
    Java_org_proj4_PJ_getInverseFlattening Dbl.math env object = Dbl.inf false := by
  rw [getInverseFlattening_of_wrapped _ _ _ _ h, hs]
  exact Dbl.one_div_one_sub_sqrt_one

/-- C8 on the sphere of radius 6370997, whose member `one_es` is 1. -/
theorem getInverseFlattening_of_sphere_witness :
    (getPJ (envOf true 0 sphere) (objAt 1) = some sphere ∧ sphere.one_es = 1) ∧
    Java_org_proj4_PJ_getInverseFlattening Dbl.math (envOf true 0 sphere) (objAt 1)
      = Dbl.inf false :=
  ⟨⟨getPJ_envOf_objAt true 0 sphere 1 (by decide), rfl⟩,
   getInverseFlattening_of_sphere (envOf true 0 sphere) (objAt 1) sphere
     (getPJ_envOf_objAt true 0 sphere 1 (by decide)) rfl⟩

/-- C9, as stated, fails on doubles in two ways. (1) Overflow: for the sphere of radius
`a = 2^700` (`es = 0`), `a*a` overflows and the semi-minor axis returned is `+inf`, above the
semi-major axis `2^700`. (2) Underflow: for the sphere of radius `a = 15 * 2^(-540)`
(`es = 0`), `a*a` is subnormal and rounds up to `2^(-1072)`, and the semi-minor axis returned
is `2^(-536)`, above the semi-major axis. -/
theorem semiMinor_le_semiMajor_refuted :
    (getPJ (envOf true 0 hugeSphere) (objAt 1) = some hugeSphere ∧
      Java_org_proj4_PJ_getSemiMinorAxis Dbl.math (envOf true 0 hugeSphere) (objAt 1)
        = Dbl.inf false ∧
      Dbl.le (Java_org_proj4_PJ_getSemiMinorAxis Dbl.math (envOf true 0 hugeSphere) (objAt 1))
        (Java_org_proj4_PJ_getSemiMajorAxis Dbl.math (envOf true 0 hugeSphere) (objAt 1))
        = false) ∧
    (getPJ (envOf true 0 tinySphere) (objAt 1) = some tinySphere ∧
      Java_org_proj4_PJ_getSemiMinorAxis Dbl.math (envOf true 0 tinySphere) (objAt 1)
        = Dbl.fin false (2 ^ (-536 : ℤ)) ∧
      Dbl.le (Java_org_proj4_PJ_getSemiMinorAxis Dbl.math (envOf true 0 tinySphere) (objAt 1))
        (Java_org_proj4_PJ_getSemiMajorAxis Dbl.math (envOf true 0 tinySphere) (objAt 1))
        = false) := by
  have h1 := getPJ_envOf_objAt true 0 hugeSphere 1 (by decide)
  have h2 := getPJ_envOf_objAt true 0 tinySphere 1 (by decide)
  have m1 : Java_org_proj4_PJ_getSemiMinorAxis Dbl.math (envOf true 0 hugeSphere) (objAt 1)
      = Dbl.inf false := by
    rw [getSemiMinorAxis_of_wrapped _ _ _ _ h1]
    simp only [hugeSphere, Dbl.math]
    rw [Dbl.sqrt_mul_huge]
  have m2 : Java_org_proj4_PJ_getSemiMinorAxis Dbl.math (envOf true 0 tinySphere) (objAt 1)
      = Dbl.fin false (2 ^ (-536 : ℤ)) := by
    rw [getSemiMinorAxis_of_wrapped _ _ _ _ h2]
    simp only [tinySphere, Dbl.math]
    rw [Dbl.sqrt_mul_tiny]
  refine ⟨⟨h1, m1, ?_⟩, ⟨h2, m2, ?_⟩⟩
  · rw [m1, getSemiMajorAxis_of_wrapped _ _ _ _ h1]
    simp only [hugeSphere, Dbl.le]
  · rw [m2, getSemiMajorAxis_of_wrapped _ _ _ _ h2]
    simp only [tinySphere, Dbl.le, Dbl.val, Bool.false_eq_true, if_false,
      decide_eq_false_iff_not, not_le]
    have h4 : (2 : ℚ) ^ (-536 : ℤ) = 2 ^ (4 : ℤ) * 2 ^ (-540 : ℤ) := by
      rw [← zpow_add₀ (by norm_num)]; rfl
    rw [h4]
    have hp := Dbl.two_zpow_pos (-540)
    have h16 : (2 : ℚ) ^ (4 : ℤ) = 16 := by norm_num
    rw [h16]
    linarith

/-- C9 (amended): on doubles, for a handle that wraps a native projection whose semi-major
axis `a_orig` is a positive double `a` with `2^(-1022) ≤ a*a < 2^1024 - 2^970` (the product
`a*a` of the source neither underflows nor overflows) and whose squared eccentricity `es_orig`
is in `[0, 1)`, the value returned by `Java_org_proj4_PJ_getSemiMinorAxis` is less than or
equal to the value returned by `Java_org_proj4_PJ_getSemiMajorAxis`. -/
theorem getSemiMinorAxis_le_getSemiMajorAxis_of_normal (env : JNIEnv Dbl) (object : JObject)
    (pj : PJ Dbl) (a : ℚ) (s : Bool) (es : ℚ) (h : getPJ env object = some pj)
    (hA : pj.a_orig = Dbl.fin false a) (hE : pj.es_orig = Dbl.fin s es)
    (ha : Dbl.IsDouble a) (ha0 : 0 < a)
    (hlo : (2 : ℚ) ^ (-1022 : ℤ) ≤ a * a) (hhi : a * a < 2 ^ 1024 - 2 ^ 970)
    (h0 : 0 ≤ Dbl.val s es) (h1 : Dbl.val s es < 1) :
    Dbl.le (Java_org_proj4_PJ_getSemiMinorAxis Dbl.math env object)
      (Java_org_proj4_PJ_getSemiMajorAxis Dbl.math env object) = true := by
  rw [getSemiMinorAxis_of_wrapped _ _ _ _ h, getSemiMajorAxis_of_wrapped _ _ _ _ h, hA, hE]
  exact Dbl.sqrt_mul_le_self a s es ha ha0 hlo hhi h0 h1

/-- C9 (amended) on the ellipsoid WGS84, `a = 6378137` and `es = 482380915665231 * 2^(-56)`. -/
theorem getSemiMinorAxis_le_getSemiMajorAxis_of_normal_witness :
    (getPJ (envOf true 0 wgs84) (objAt 1) = some wgs84 ∧
      Dbl.IsDouble 6378137 ∧ (0 : ℚ) < 6378137 ∧
      (2 : ℚ) ^ (-1022 : ℤ) ≤ 6378137 * 6378137 ∧
      (6378137 * 6378137 : ℚ) < 2 ^ 1024 - 2 ^ 970 ∧
      0 ≤ Dbl.val false (482380915665231 / 2 ^ 56) ∧
      Dbl.val false (482380915665231 / 2 ^ 56) < 1) ∧
    Dbl.le (Java_org_proj4_PJ_getSemiMinorAxis Dbl.math (envOf true 0 wgs84) (objAt 1))
      (Java_org_proj4_PJ_getSemiMajorAxis Dbl.math (envOf true 0 wgs84) (objAt 1)) = true := by
  have hpj := getPJ_envOf_objAt true 0 wgs84 1 (by decide)
  have hd : Dbl.IsDouble 6378137 :=
    Dbl.isDouble_of_multiple 6378137 0 (by norm_num) (by norm_num) (by norm_num) (by norm_num)
  have hlo : (2 : ℚ) ^ (-1022 : ℤ) ≤ 6378137 * 6378137 := by
    have h2 : (2 : ℚ) ^ (-1022 : ℤ) ≤ 2 ^ (0 : ℤ) := Dbl.zpow_le_zpow (by norm_num)
    rw [zpow_zero] at h2
    linarith
  have hhi : (6378137 * 6378137 : ℚ) < 2 ^ 1024 - 2 ^ 970 := by norm_num
  have h0 : 0 ≤ Dbl.val false (482380915665231 / 2 ^ 56) := by simp [Dbl.val]; positivity
  have h1 : Dbl.val false (482380915665231 / 2 ^ 56) < 1 := by simp [Dbl.val]; norm_num
  exact ⟨⟨hpj, hd, by norm_num, hlo, hhi, h0, h1⟩,
    getSemiMinorAxis_le_getSemiMajorAxis_of_normal (envOf true 0 wgs84) (objAt 1) wgs84
      6378137 false (482380915665231 / 2 ^ 56) hpj rfl rfl hd (by norm_num) hlo hhi h0 h1⟩

end JniProj
